import Mathlib

/-!
Verification development for the AgentScope workstation workflow engine
(`agentscope/web/workstation/workflow_dag.py`, `workflow_node.py`,
`agentscope/studio/tools/condition_operator.py`).

The Python sources are shallowly embedded:
* Python runtime values are modelled by the inductive `PyVal`
  (`None`, booleans, strings, integers, lists, dicts, `Msg` objects).
* Fallible Python code (raising exceptions) is modelled with `Except String`.
* The graph engine `ASDiGraph` is a record of nodes, edges and the
  `nodes_not_in_graph` set; its `run` method is a fuelled ready-queue loop.
* Node operators are external collaborators: `run` is parametrised by an
  arbitrary operator function `OptFun`, exactly as the engine only calls
  `self.nodes[node_id]["opt"](x_in)`.
-/

/-- Model of Python runtime values as they occur in the workflow engine:
`None`, `bool`, `str`, `int`, `list`, `dict` (an insertion-ordered
association list, as Python dicts are), and `Msg` objects (modelled by
their `name` and `content` fields, the only ones the engine reads). -/
inductive PyVal where
  | none : PyVal
  | bool (b : Bool) : PyVal
  | str (s : String) : PyVal
  | int (n : Int) : PyVal
  | list (xs : List PyVal) : PyVal
  | dict (entries : List (String × PyVal)) : PyVal
  | msg (name content : String) : PyVal

/-- Python truthiness (`bool(v)`), used by `is empty` / `is not empty` and
by branch flags: `None`, `False`, `""`, `0`, `[]`, `{}` are falsy; a `Msg`
object is always truthy. -/
def pyTruthy : PyVal → Bool
  | .none => false
  | .bool b => b
  | .str s => !(s == "")
  | .int n => !(n == 0)
  | .list xs => !xs.isEmpty
  | .dict d => !d.isEmpty
  | .msg _ _ => true

/-- Python `==` between two values, structurally. (Python compares dicts
order-insensitively; the engine never compares dicts with `==`, so the
ordered comparison here is only ever applied to scalars and lists.) -/
def pyEqB : PyVal → PyVal → Bool
  | .none, .none => true
  | .bool a, .bool b => a == b
  | .str a, .str b => a == b
  | .int a, .int b => a == b
  | .list [], .list [] => true
  | .list (a :: as), .list (b :: bs) => pyEqB a b && pyEqB (.list as) (.list bs)
  | .dict [], .dict [] => true
  | .dict ((k, v) :: xs), .dict ((k2, v2) :: ys) =>
      k == k2 && pyEqB v v2 && pyEqB (.dict xs) (.dict ys)
  | .msg n c, .msg n2 c2 => n == n2 && c == c2
  | _, _ => false
termination_by a _ => sizeOf a
decreasing_by all_goals simp_wf <;> omega

/-- Dict lookup `d[k]` / `d.get(k)` on the association-list model: the
first entry whose key matches. -/
def dlookup (d : List (String × PyVal)) (k : String) : Option PyVal :=
  (d.find? (fun p => p.1 == k)).map (fun p => p.2)

/-- Dict item assignment `d[k] = v`: replace in place if the key exists
(keeping insertion order, as Python does), otherwise append. -/
def dset : List (String × PyVal) → String → PyVal → List (String × PyVal)
  | [], k, v => [(k, v)]
  | p :: ps, k, v => if p.1 == k then (k, v) :: ps else p :: dset ps k v

/-- Python `value == ""`: true exactly for the empty string.
Used by `sanitize_node_data`. -/
def isEmptyStr : PyVal → Bool
  | .str s => s == ""
  | _ => false

/-- Boolean prefix test on character lists (helper for the substring
test of Python `in` on strings). -/
def charsPrefixB : List Char → List Char → Bool
  | [], _ => true
  | _ :: _, [] => false
  | a :: as, b :: bs => a == b && charsPrefixB as bs

/-- Boolean substring test on character lists: the needle occurs
contiguously somewhere in the haystack. -/
def charsInfixB (needle : List Char) : List Char → Bool
  | [] => needle.isEmpty
  | b :: bs => charsPrefixB needle (b :: bs) || charsInfixB needle bs

/-- Python `target in container` (substring test for strings, membership
for lists, key membership for dicts; `TypeError` otherwise). -/
def pyIn (target container : PyVal) : Except String Bool :=
  match container, target with
  | .str a, .str t => .ok (charsInfixB t.toList a.toList)
  | .str _, _ => .error "TypeError: in <string> requires string as left operand"
  | .list xs, t => .ok (xs.any (fun v => pyEqB v t))
  | .dict d, .str t => .ok (d.any (fun p => p.1 == t))
  | _, _ => .error "TypeError: argument of type is not iterable"

/-- Python `actual.startswith(target)`; raises unless both are strings. -/
def pyStartsWith : PyVal → PyVal → Except String Bool
  | .str a, .str t => .ok (a.startsWith t)
  | .str _, _ => .error "TypeError: startswith first arg must be str"
  | _, _ => .error "AttributeError: object has no attribute startswith"

/-- Python `actual.endswith(target)`; raises unless both are strings. -/
def pyEndsWith : PyVal → PyVal → Except String Bool
  | .str a, .str t => .ok (a.endsWith t)
  | .str _, _ => .error "TypeError: endswith first arg must be str"
  | _, _ => .error "AttributeError: object has no attribute endswith"

/-- Embedding of `eval_condition_operator` from
`agentscope/studio/tools/condition_operator.py`.  A `Msg` actual value is
first replaced by its `content` field (`actual_value.get('content', '')`);
then the operator string is dispatched exactly as the `if`/`elif` chain
does, ending in `ValueError` for an unrecognized operator. -/
def eval_condition_operator (actual_value : PyVal) (operator : String)
    (target_value : PyVal) : Except String Bool :=
  let actual_value := match actual_value with
    | .msg _ content => .str content
    | v => v
  if operator == "contains" then pyIn target_value actual_value
  else if operator == "not contains" then
    match pyIn target_value actual_value with
    | .ok b => .ok (!b)
    | .error e => .error e
  else if operator == "start with" then pyStartsWith actual_value target_value
  else if operator == "end with" then pyEndsWith actual_value target_value
  else if operator == "equals" then .ok (pyEqB actual_value target_value)
  else if operator == "not equals" then .ok (!pyEqB actual_value target_value)
  else if operator == "is empty" then .ok (!pyTruthy actual_value)
  else if operator == "is not empty" then .ok (pyTruthy actual_value)
  else if operator == "is null" then
    .ok (match actual_value with | .none => true | _ => false)
  else if operator == "is not null" then
    .ok (match actual_value with | .none => false | _ => true)
  else .error ("Invalid condition operator: " ++ operator)

/-- Embedding of `IfElseNode.__call__` from `workflow_node.py`:
`x["branch"] = self.pipeline(x); return x`, where `self.pipeline` is
`eval_condition_operator` partially applied to the configured operator and
target.  The right-hand side is evaluated first (so a predicate error
surfaces first); the item assignment then requires a dict — invoking the
node with the `None` default input raises a `TypeError` instead. -/
def IfElseNode_call (condition_op : String) (target_value : String)
    (x : Option PyVal) : Except String PyVal :=
  match eval_condition_operator (x.getD .none) condition_op (.str target_value) with
  | .error e => .error e
  | .ok b =>
    match x with
    | some (.dict d) => .ok (.dict (dset d "branch" (.bool b)))
    | _ => .error "TypeError: object does not support item assignment"

/-- Result of `SwitchPipelineNode._post_init`: the case label to operator
mapping and the default operator (`Option.none` models the `placeholder`
default used when no extra dependency operator is supplied). -/
structure SwitchInit (α : Type) where
  case_operators : List (PyVal × α)
  default_operator : Option α

/-- Embedding of `SwitchPipelineNode._post_init` from `workflow_node.py`
(operator objects are abstracted by the type `α`; the construction only
inspects their count).  Faithful to the source order:
`assert 0 < len(self.dep_opts)` first; then if the dependency count equals
`len(cases)` there is no default; if it exceeds it by one the final
dependency is popped as the default; otherwise `ValueError`. -/
def SwitchPipelineNode_post_init {α : Type} (cases : List PyVal)
    (dep_opts : List α) : Except String (SwitchInit α) :=
  if dep_opts.length == 0 then
    .error "AssertionError: SwitchPipelineNode must contain at least one PipelineNode."
  else if dep_opts.length == cases.length then
    .ok { case_operators := cases.zip dep_opts, default_operator := Option.none }
  else if dep_opts.length == cases.length + 1 then
    .ok { case_operators := cases.zip dep_opts.dropLast,
          default_operator := dep_opts.getLast? }
  else
    .error "ValueError: SwitchPipelineNode deps not matches cases."

/-- The node category enumeration `WorkflowNodeType` from
`workflow_node.py`. -/
inductive WorkflowNodeType where
  | MODEL | AGENT | PIPELINE | SERVICE | MESSAGE | COPY | TOOL | START | IFELSE
deriving DecidableEq, Repr

/-- One configuration record for a node, i.e. the drawflow entry
`{ name, data: { args, elements, source }, inputs, outputs }`.
Connections only ever use the `node` field of each connection object, so
`inputs` and `outputs` map a port name to the list of connected node ids. -/
structure NodeRecord where
  name : String
  args : List (String × PyVal)
  source : List (String × PyVal)
  elements : List String
  inputs : List (String × List String)
  outputs : List (String × List String)

/-- A workflow configuration: the id-to-record mapping (insertion ordered,
as a Python dict). -/
abbrev ConfigMap := List (String × NodeRecord)

/-- The `node_type` of the class that `NODE_NAME_MAPPING` in
`workflow_node.py` assigns to each node-type name; `Option.none` models
the `KeyError` raised for unknown names. -/
def nodeTypeOfName (name : String) : Option WorkflowNodeType :=
  if name == "start" then some .START
  else if name == "dashscope_chat" then some .MODEL
  else if name == "openai_chat" then some .MODEL
  else if name == "post_api_chat" then some .MODEL
  else if name == "post_api_dall_e" then some .MODEL
  else if name == "dashscope_image_synthesis" then some .MODEL
  else if name == "Message" then some .MESSAGE
  else if name == "DialogAgent" then some .AGENT
  else if name == "UserAgent" then some .AGENT
  else if name == "TextToImageAgent" then some .AGENT
  else if name == "DictDialogAgent" then some .AGENT
  else if name == "ReActAgent" then some .AGENT
  else if name == "Placeholder" then some .PIPELINE
  else if name == "MsgHub" then some .PIPELINE
  else if name == "SequentialPipeline" then some .PIPELINE
  else if name == "ForLoopPipeline" then some .PIPELINE
  else if name == "WhileLoopPipeline" then some .PIPELINE
  else if name == "IfElsePipeline" then some .PIPELINE
  else if name == "SwitchPipeline" then some .PIPELINE
  else if name == "CopyNode" then some .COPY
  else if name == "BingSearchService" then some .SERVICE
  else if name == "GoogleSearchService" then some .SERVICE
  else if name == "PythonService" then some .SERVICE
  else if name == "ReadTextService" then some .SERVICE
  else if name == "WriteTextService" then some .SERVICE
  else if name == "Post" then some .TOOL
  else if name == "TextToAudioService" then some .SERVICE
  else if name == "TextToImageService" then some .SERVICE
  else if name == "ImageComposition" then some .TOOL
  else if name == "IF/ELSE" then some .IFELSE
  else if name == "Code" then some .TOOL
  else if name == "ImageMotion" then some .TOOL
  else if name == "VideoComposition" then some .TOOL
  else Option.none

/-- Embedding of `sanitize_node_data` from `workflow_dag.py`: the record
first receives `source := deepcopy(args)`, then every key whose argument
value equals `""` is popped from both `args` and `source` (popping from an
insertion-ordered dict is dropping the entry, i.e. a filter). -/
def sanitize_node_data (info : NodeRecord) : NodeRecord :=
  let source := info.args
  { info with
    args := info.args.filter (fun kv => !isEmptyStr kv.2),
    source := source.filter (fun kv => !isEmptyStr kv.2) }

/-- An edge of the `ASDiGraph`: source node id, target node id, and the
`input_key` attribute. -/
abbrev EdgeT := String × String × String

/-- Embedding of the `ASDiGraph` object: the node attribute map (node id
to its drawflow record; the runtime operator is supplied separately to
`run`), the edge list in insertion order, and the `nodes_not_in_graph`
set (modelled as a list whose interface is membership). -/
structure ASDiGraph where
  nodes : List (String × NodeRecord)
  edges : List EdgeT
  nodes_not_in_graph : List String

/-- The empty graph produced by `ASDiGraph.__init__`. -/
def ASDiGraph.empty : ASDiGraph := { nodes := [], edges := [], nodes_not_in_graph := [] }

/-- `self.has_node(node_id)`. -/
def ASDiGraph.hasNode (g : ASDiGraph) (nodeId : String) : Bool :=
  g.nodes.any (fun p => p.1 == nodeId)

/-- The attribute record of a node (`self.nodes[node_id]`), if present. -/
def ASDiGraph.findNode (g : ASDiGraph) (nodeId : String) : Option NodeRecord :=
  (g.nodes.find? (fun p => p.1 == nodeId)).map (fun p => p.2)

/-- `self.nodes[node_id]["opt"].node_type`: the category of the operator
held by a node, determined by the record name through `NODE_NAME_MAPPING`. -/
def ASDiGraph.nodeTypeOf (g : ASDiGraph) (nodeId : String) : Option WorkflowNodeType :=
  (g.findNode nodeId).bind (fun info => nodeTypeOfName info.name)

/-- `self.predecessors(node_id)`: sources of the incoming edges, in edge
insertion order (as networkx iterates them). -/
def ASDiGraph.predecessors (g : ASDiGraph) (nodeId : String) : List String :=
  (g.edges.filter (fun e => e.2.1 == nodeId)).map (fun e => e.1)

/-- `self.adj[node_id].keys()`: targets of the outgoing edges, in edge
insertion order.  `add_edge` never duplicates a (source, target) pair, so
this list is duplicate-free on built graphs. -/
def ASDiGraph.successors (g : ASDiGraph) (nodeId : String) : List String :=
  (g.edges.filter (fun e => e.1 == nodeId)).map (fun e => e.2.1)

/-- `self.in_degree(node_id)`. -/
def ASDiGraph.inDegree (g : ASDiGraph) (nodeId : String) : Nat :=
  (g.edges.filter (fun e => e.2.1 == nodeId)).length

/-- Whether some edge goes from `u` to `v`. -/
def hasEdgePairB (edges : List EdgeT) (u v : String) : Bool :=
  edges.any (fun e => e.1 == u && e.2.1 == v)

/-- `self.add_edge(u, v, input_key=key)`: if the (u, v) edge exists its
attribute is updated in place, otherwise the edge is appended. -/
def ASDiGraph.addEdge (g : ASDiGraph) (u v key : String) : ASDiGraph :=
  if hasEdgePairB g.edges u v then
    { g with edges := g.edges.map (fun e => if e.1 == u && e.2.1 == v then (u, v, key) else e) }
  else
    { g with edges := g.edges ++ [(u, v, key)] }

/-- `self.add_node(node_id, opt=node_opt, **node_info)`. -/
def ASDiGraph.addNode (g : ASDiGraph) (nodeId : String) (info : NodeRecord) : ASDiGraph :=
  { g with nodes := g.nodes ++ [(nodeId, info)] }

/-- `self.nodes_not_in_graph = self.nodes_not_in_graph.union(set(deps))`
(a list models the set; only membership is ever consumed). -/
def ASDiGraph.addNotIn (g : ASDiGraph) (deps : List String) : ASDiGraph :=
  { g with nodes_not_in_graph := g.nodes_not_in_graph ++ deps }

/-- The construction-time validity checks that building a node operator
performs (`node_cls(...)` in `add_as_node`).  Construction of the leaf
collaborators themselves (agents, models, services) is external to the
engine and modelled as succeeding; what is modelled are the arity
assertions of the composite nodes in `workflow_node.py` and the
case-count check of `SwitchPipelineNode._post_init`. -/
def constructorCheck (info : NodeRecord) (numDeps : Nat) : Except String Unit :=
  if info.name == "MsgHub" then
    if numDeps == 1 then .ok () else .error "AssertionError: MsgHub members must be a list of length 1"
  else if info.name == "ForLoopPipeline" then
    if numDeps == 1 then .ok () else .error "AssertionError: ForLoopPipelineNode can only contain one PipelineNode."
  else if info.name == "WhileLoopPipeline" then
    if numDeps == 1 then .ok () else .error "AssertionError: WhileLoopPipelineNode can only contain one PipelineNode."
  else if info.name == "IfElsePipeline" then
    if 0 < numDeps && numDeps ≤ 2 then .ok () else .error "AssertionError: IfElsePipelineNode must contain one or two PipelineNode."
  else if info.name == "SwitchPipeline" then
    match dlookup info.args "cases" with
    | some (.list cs) =>
      match SwitchPipelineNode_post_init cs (List.range numDeps) with
      | .ok _ => .ok ()
      | .error e => .error e
    | _ => .error "KeyError: cases"
  else if info.name == "CopyNode" then
    if numDeps == 1 then .ok () else .error "AssertionError: CopyNode can only have one parent!"
  else .ok ()

/-- A pending call of the recursive node construction: either
`add_as_node(node_id, node_info, config)` itself, or the loop over a
node dependency list (`for dep_node_id in deps`). -/
inductive BuildCall where
  | node (nodeId : String) (info : NodeRecord)
  | deps (ds : List String)

/-- Python `config[dep_node_id]` (dict lookup; keys are unique). -/
def configLookup (config : ConfigMap) (nodeId : String) : Option NodeRecord :=
  (config.find? (fun p => p.1 == nodeId)).map (fun p => p.2)

/-- Embedding of `ASDiGraph.add_as_node` from `workflow_dag.py`.  The
recursion (a node first recursively builds every id in its `elements`) is
fuelled; the two call shapes share one structurally recursive function.
Faithful to the source order: unknown name is a `KeyError`; the
`NotImplementedError` guard never fires because every member of
`WorkflowNodeType` is in the permitted list; an already-present node
returns immediately; otherwise for a non-`COPY` node the dependency ids
are added to `nodes_not_in_graph` before the dependencies are built; the
node operator is then constructed and the node added. -/
def buildGo (config : ConfigMap) : Nat → ASDiGraph → BuildCall → Except String ASDiGraph
  | 0, _, _ => .error "RecursionError: maximum recursion depth exceeded"
  | _ + 1, g, .deps [] => .ok g
  | fuel + 1, g, .deps (d :: ds) =>
    match (if g.hasNode d then (.ok g : Except String ASDiGraph)
           else match configLookup config d with
                | Option.none => .error ("KeyError: " ++ d)
                | some info => buildGo config fuel g (.node d info)) with
    | .error e => .error e
    | .ok g => buildGo config fuel g (.deps ds)
  | fuel + 1, g, .node nodeId info =>
    match nodeTypeOfName info.name with
    | Option.none => .error ("KeyError: " ++ info.name)
    | some nty =>
      if g.hasNode nodeId then .ok g
      else
        let deps := info.elements
        let g := if nty ≠ WorkflowNodeType.COPY then g.addNotIn deps else g
        match buildGo config fuel g (.deps deps) with
        | .error e => .error e
        | .ok g =>
          match constructorCheck info deps.length with
          | .error e => .error e
          | .ok _ => .ok (g.addNode nodeId info)

/-- Fuel that is ample for the recursion of `buildGo` on a configuration
(every node is built at most once and each dependency list is walked once
per node). -/
def buildFuel (config : ConfigMap) : Nat :=
  (config.length + 1) * (config.foldl (fun a p => a + p.2.elements.length + 2) 1)

/-- One pass of `build_dag` over the configuration items: the first pass
(`isModelPhase = true`) adds and initializes the `MODEL` nodes, the second
one all remaining nodes.  Looking up an unknown node-type name in
`NODE_NAME_MAPPING` inside the loop condition raises a `KeyError`. -/
def buildPhase (config : ConfigMap) (isModelPhase : Bool) :
    List (String × NodeRecord) → ASDiGraph → Except String ASDiGraph
  | [], g => .ok g
  | (nodeId, info) :: rest, g =>
    match nodeTypeOfName info.name with
    | Option.none => .error ("KeyError: " ++ info.name)
    | some nty =>
      match (if ((nty == WorkflowNodeType.MODEL) == isModelPhase) then
               buildGo config (buildFuel config) g (.node nodeId info)
             else (.ok g : Except String ASDiGraph)) with
      | .error e => .error e
      | .ok g => buildPhase config isModelPhase rest g

/-- The edge pass of `build_dag`: for every node and every connection of
every input port, add the edge declared-source to current-node with the
port name as `input_key`. -/
def addInputEdges (nodeId : String) : List (String × List String) → ASDiGraph → ASDiGraph
  | [], g => g
  | (input_key, conns) :: rest, g =>
    addInputEdges nodeId rest (conns.foldl (fun g src => g.addEdge src nodeId input_key) g)

/-- All edges of the configuration, added in configuration order. -/
def addAllEdges : ConfigMap → ASDiGraph → ASDiGraph
  | [], g => g
  | (nodeId, info) :: rest, g => addAllEdges rest (addInputEdges nodeId info.inputs g)

/-- The node list that the acyclicity check ranges over: declared nodes
plus edge endpoints (networkx `add_edge` inserts missing endpoints). -/
def dagNodeList (g : ASDiGraph) : List String :=
  g.nodes.map (fun p => p.1) ++ g.edges.map (fun e => e.1) ++ g.edges.map (fun e => e.2.1)

/-- One round of Kahn-style peeling: keep exactly the nodes that still
have an incoming edge from a remaining node. -/
def peelStep (edges : List EdgeT) (remaining : List String) : List String :=
  remaining.filter (fun n => edges.any (fun e => e.2.1 == n && remaining.any (fun m => m == e.1)))

/-- Iterated peeling. -/
def peelIter (edges : List EdgeT) : Nat → List String → List String
  | 0, r => r
  | k + 1, r => peelIter edges k (peelStep edges r)

/-- Model of `nx.is_directed_acyclic_graph`: peel nodes without live
incoming edges until a fixed point; the graph is acyclic exactly when
nothing remains. -/
def isDAGcheckB (g : ASDiGraph) : Bool :=
  (peelIter g.edges (dagNodeList g).length (dagNodeList g)).isEmpty

/-- The `for node_id, node_info in config.items(): config[node_id] =
sanitize_node_data(node_info)` pass of `build_dag`. -/
def sanitizeConfig (config : ConfigMap) : ConfigMap :=
  config.map (fun p => (p.1, sanitize_node_data p.2))

/-- Embedding of `build_dag` from `workflow_dag.py` for an (unwrapped)
configuration: sanitize every record, add and initialize the model nodes,
then the non-model nodes, then the edges, and finally reject the
configuration unless the graph is a DAG.  (The optional drawflow envelope
unwrapping only selects the inner mapping and is not modelled; the claims
quantify over unwrapped configurations.) -/
def build_dag (config : ConfigMap) : Except String ASDiGraph :=
  match buildPhase (sanitizeConfig config) true (sanitizeConfig config) ASDiGraph.empty with
  | .error e => .error e
  | .ok g =>
    match buildPhase (sanitizeConfig config) false (sanitizeConfig config) g with
    | .error e => .error e
    | .ok g =>
      if isDAGcheckB (addAllEdges (sanitizeConfig config) g) then
        .ok (addAllEdges (sanitizeConfig config) g)
      else .error "The provided configuration does not form a DAG."

/-- The `values` output cache of `run`, keyed by node id (insertion
ordered, like the Python dict). -/
abbrev Values := List (String × PyVal)

/-- `values[node_id]` lookup. -/
def vlookup (vs : Values) (k : String) : Option PyVal :=
  (vs.find? (fun p => p.1 == k)).map (fun p => p.2)

/-- `values[node_id] = v` assignment (replace in place or append). -/
def vset : Values → String → PyVal → Values
  | [], k, v => [(k, v)]
  | p :: ps, k, v => if p.1 == k then (k, v) :: ps else p :: vset ps k v

/-- An operator assignment: what `self.nodes[node_id]["opt"](x_in)`
returns (or which exception it raises) for each node id and input.  The
operators are the engine's external collaborators, so `run` is
parametrised by this function. -/
abbrev OptFun := String → Option PyVal → Except String PyVal

/-- The mutable state of the ready-queue traversal of `run`: the deque,
the visited set (insertion ordered — the order doubles as the execution
trace) and the output cache. -/
structure RunState where
  queue : List String
  visited : List String
  values : Values

/-- `values[node_id].get("branch", True)`: dict lookup with default
`True`; a `Msg` also answers `.get` (no `branch` key, so the default);
any other value has no `.get` and raises. -/
def getBranch : PyVal → Except String Bool
  | .dict d =>
    .ok (match dlookup d "branch" with
         | some v => pyTruthy v
         | Option.none => true)
  | .msg _ _ => .ok true
  | _ => .error "AttributeError: object has no attribute get"

/-- `node_info["outputs"][port].get("connections", [])`: the connection
targets of an output port; a missing port is a `KeyError`. -/
def outputsPort (info : NodeRecord) (port : String) : Except String (List String) :=
  match info.outputs.find? (fun p => p.1 == port) with
  | Option.none => .error ("KeyError: " ++ port)
  | some p => .ok p.2

/-- The input actually passed to the operator: zero predecessors invoke
with no input, one with that single output, several with the ordered list
of outputs.  (The dead `else raise ValueError("Too many predecessors!")`
branch of the source is unreachable.) -/
def mkXIn : List PyVal → Option PyVal
  | [] => Option.none
  | [v] => some v
  | vs => some (.list vs)

/-- The ids enqueued after a node executes and produces `out`: for an
`IFELSE` node the connection targets of the output port selected by the
branch flag of `out` (`output_1` for true, `output_2` for false), for
every other node all graph successors. -/
def childrenOf (g : ASDiGraph) (info : NodeRecord) (nodeId : String)
    (out : PyVal) : Except String (List String) :=
  if nodeTypeOfName info.name = some WorkflowNodeType.IFELSE then
    match getBranch out with
    | .error e => .error e
    | .ok b => outputsPort info (if b then "output_1" else "output_2")
  else .ok (g.successors nodeId)

/-- One iteration of the `while node_queue:` loop of `ASDiGraph.run`:
pop the front id; skip it if visited; if some direct predecessor is
unvisited re-enqueue it at the back; otherwise gather the predecessor
outputs, invoke the operator, cache the output, mark visited, and enqueue
the not-yet-visited children (branch-exclusively for `IFELSE`). -/
def runStep (g : ASDiGraph) (opt : OptFun) (s : RunState) : Except String RunState :=
  match s.queue with
  | [] => .ok s
  | n :: rest =>
    if n ∈ s.visited then .ok { s with queue := rest }
    else if (g.predecessors n).all (fun p => decide (p ∈ s.visited)) then
      match g.findNode n with
      | Option.none => .error "KeyError: node not in graph"
      | some info =>
        match (g.predecessors n).mapM (fun p => vlookup s.values p) with
        | Option.none => .error "KeyError: missing predecessor output"
        | some inputs =>
          match opt n (mkXIn inputs) with
          | .error e => .error e
          | .ok out =>
            match childrenOf g info n out with
            | .error e => .error e
            | .ok children =>
              .ok { queue := rest ++ children.filter (fun c => decide (c ∉ s.visited ++ [n])),
                    visited := s.visited ++ [n],
                    values := vset s.values n out }
    else .ok { s with queue := rest ++ [n] }

/-- Outcome of the fuelled traversal: the loop finished with a final
state, an exception was raised, or the fuel ran out with the loop still
going (the instrument for stating non-termination). -/
inductive RunOutcome where
  | finished (s : RunState)
  | error (e : String)
  | outOfFuel (s : RunState)

/-- Whether the outcome is `outOfFuel`. -/
def RunOutcome.isOutOfFuel : RunOutcome → Bool
  | .outOfFuel _ => true
  | _ => false

/-- The fuelled `while node_queue:` loop. -/
def runLoop (g : ASDiGraph) (opt : OptFun) : Nat → RunState → RunOutcome
  | 0, s => if s.queue.isEmpty then .finished s else .outOfFuel s
  | fuel + 1, s =>
    if s.queue.isEmpty then .finished s
    else
      match runStep g opt s with
      | .error e => .error e
      | .ok s' => runLoop g opt fuel s'

/-- `sorted_nodes`: the participating node ids (declared nodes not in
`nodes_not_in_graph`).  Only membership and the relative order of the
zero-in-degree roots are consumed downstream, and every topological order
produced by Kahn's algorithm lists the roots in node insertion order, so
the insertion-ordered filter models the sort. -/
def participatingList (g : ASDiGraph) : List String :=
  (g.nodes.map (fun p => p.1)).filter (fun n => decide (n ∉ g.nodes_not_in_graph))

/-- `start_node_ids`: participating roots (in-degree zero) whose operator
category is `START`.  (`model_node_ids` are likewise classified by the
source but only to be excluded from seeding, which the seeding below
reproduces.) -/
def startNodeIds (g : ASDiGraph) : List String :=
  ((participatingList g).filter (fun n => g.inDegree n == 0)).filter
    (fun n => decide (g.nodeTypeOf n = some WorkflowNodeType.START))

/-- Embedding of `ASDiGraph.run`: `nx.topological_sort` first (raising
`NetworkXUnfeasible` on a cyclic graph), then the fatal "No start node
found!" check, then the ready-queue traversal seeded with the start
roots.  (`agentscope.init` is an external side effect and not modelled.) -/
def ASDiGraph.run (g : ASDiGraph) (opt : OptFun) (fuel : Nat) : RunOutcome :=
  if isDAGcheckB g then
    if (startNodeIds g).length ≤ 0 then .error "No start node found!"
    else runLoop g opt fuel { queue := startNodeIds g, visited := [], values := [] }
  else .error "NetworkXUnfeasible: graph contains a cycle"

/-- The ids that the traversal would enqueue after node `n`, relative to
an output cache: the live (branch-selected) successors for an `IFELSE`
node whose output is cached, all graph successors otherwise.  This is the
successor relation actually followed by `runStep`. -/
def liveSuccs (g : ASDiGraph) (values : Values) (n : String) : List String :=
  match g.findNode n with
  | Option.none => []
  | some info =>
    if nodeTypeOfName info.name = some WorkflowNodeType.IFELSE then
      match vlookup values n with
      | Option.none => []
      | some out =>
        match getBranch out with
        | .error _ => []
        | .ok b =>
          match outputsPort info (if b then "output_1" else "output_2") with
          | .error _ => []
          | .ok conns => conns
    else g.successors n

/-- Reachability from the start seeds along the live successor relation:
the nodes a run with the given output cache can ever enqueue.  A node
reachable only through the untaken output port of a conditional is not in
this closure. -/
inductive TakenReach (g : ASDiGraph) (values : Values) : String → Prop where
  | start (n : String) : n ∈ startNodeIds g → TakenReach g values n
  | step (n m : String) : TakenReach g values n → m ∈ liveSuccs g values n →
      TakenReach g values m

/-- Whether every output-port connection of every node is mirrored by a
graph edge — true for every drawflow configuration, whose `outputs` and
`inputs` connection lists mirror each other. -/
def OutputsMirroredB (g : ASDiGraph) : Bool :=
  g.nodes.all (fun p => p.2.outputs.all (fun pc => pc.2.all
    (fun m => hasEdgePairB g.edges p.1 m)))

/-- The ids that build absorbs into composites: the union of the
`elements` of every non-`COPY` record (what `add_as_node` inserts into
`nodes_not_in_graph`). -/
def configNotIn (config : ConfigMap) : List String :=
  config.foldr
    (fun p acc =>
      if nodeTypeOfName p.2.name = some WorkflowNodeType.COPY then acc
      else p.2.elements ++ acc) []

/-- The participating node ids of a configuration: declared ids minus the
absorbed dependency ids. -/
def participatingIdsOfConfig (config : ConfigMap) : List String :=
  (config.map (fun p => p.1)).filter (fun id => decide (id ∉ configNotIn config))

/-- Whether the configuration declares an input connection of node `v`
coming from node `u` — i.e. `build_dag` adds the edge `u → v`. -/
def inputPairB (config : ConfigMap) (u v : String) : Bool :=
  config.any (fun p => p.1 == v &&
    p.2.inputs.any (fun pc => pc.2.any (fun src => src == u)))

/-- Whether `u → v` is an edge of the participating subgraph of the
configuration. -/
def participatingPairB (config : ConfigMap) (u v : String) : Bool :=
  inputPairB config u v && decide (u ∈ participatingIdsOfConfig config)
    && decide (v ∈ participatingIdsOfConfig config)

/-- A (nonempty) cycle for a pair relation: consecutive elements, with
wrap-around, are related. -/
def CycleRelList (P : String → String → Prop) (c : List String) : Prop :=
  c ≠ [] ∧ ∀ p ∈ c.zip (c.rotate 1), P p.1 p.2

/-- Building block for concrete configurations: a record with the given
name, elements and port connections, and no arguments. -/
def mkRec (name : String) (elements : List String)
    (inputs outputs : List (String × List String)) : NodeRecord :=
  { name := name, args := [], source := [], elements := elements,
    inputs := inputs, outputs := outputs }

/-- Concrete configuration for the branch-join divergence: a Start node
`s` feeding an IF/ELSE node `c` whose `output_1` leads to `a` and
`output_2` to `b`, and a join node `d` with predecessors on both
branches. -/
def cfgJoin : ConfigMap :=
  [ ("s", mkRec "start" [] [] [("output_1", ["c"])]),
    ("c", mkRec "IF/ELSE" [] [("input_1", ["s"])]
      [("output_1", ["a"]), ("output_2", ["b"])]),
    ("a", mkRec "Message" [] [("input_1", ["c"])] [("output_1", ["d"])]),
    ("b", mkRec "Message" [] [("input_1", ["c"])] [("output_1", ["d"])]),
    ("d", mkRec "Message" [] [("input_1", ["a", "b"])] []) ]

/-- The graph that `build_dag` produces from `cfgJoin`. -/
def gJoin : ASDiGraph :=
  { nodes :=
      [ ("s", mkRec "start" [] [] [("output_1", ["c"])]),
        ("c", mkRec "IF/ELSE" [] [("input_1", ["s"])]
          [("output_1", ["a"]), ("output_2", ["b"])]),
        ("a", mkRec "Message" [] [("input_1", ["c"])] [("output_1", ["d"])]),
        ("b", mkRec "Message" [] [("input_1", ["c"])] [("output_1", ["d"])]),
        ("d", mkRec "Message" [] [("input_1", ["a", "b"])] []) ],
    edges :=
      [ ("s", "c", "input_1"), ("c", "a", "input_1"), ("c", "b", "input_1"),
        ("a", "d", "input_1"), ("b", "d", "input_1") ],
    nodes_not_in_graph := [] }

/-- Operators for `gJoin`: the conditional node answers with a true
branch flag, every other node with an empty dict. -/
def optJoin : OptFun := fun n _ =>
  if n == "c" then .ok (.dict [("branch", .bool true)]) else .ok (.dict [])

/-- The state in which the traversal of `gJoin` gets stuck: `s`, `c`, `a`
are visited, the pruned node `b` never will be, and the join node `d`
sits in the queue forever. -/
def sJoinStuck : RunState :=
  { queue := ["d"], visited := ["s", "c", "a"],
    values := [("s", .dict []), ("c", .dict [("branch", .bool true)]), ("a", .dict [])] }

/-- Concrete graph for the non-Start-root claim: Start node `s` feeding
`t`, plus an isolated participating Message root `m`. -/
def gRoot : ASDiGraph :=
  { nodes :=
      [ ("s", mkRec "start" [] [] [("output_1", ["t"])]),
        ("t", mkRec "Message" [] [("input_1", ["s"])] []),
        ("m", mkRec "Message" [] [] []) ],
    edges := [("s", "t", "input_1")],
    nodes_not_in_graph := [] }

/-- Operators for `gRoot`. -/
def optRoot : OptFun := fun _ _ => .ok (.dict [])

/-- The final state of running `gRoot`: `m` is never scheduled. -/
def sRootFinal : RunState :=
  { queue := [], visited := ["s", "t"],
    values := [("s", .dict []), ("t", .dict [])] }

/-- Concrete graph for the branch-exclusivity witness: Start `s`, an
IF/ELSE `c` with `output_1 → a` and `output_2 → b`. -/
def gBranch : ASDiGraph :=
  { nodes :=
      [ ("s", mkRec "start" [] [] [("output_1", ["c"])]),
        ("c", mkRec "IF/ELSE" [] [("input_1", ["s"])]
          [("output_1", ["a"]), ("output_2", ["b"])]),
        ("a", mkRec "Message" [] [("input_1", ["c"])] []),
        ("b", mkRec "Message" [] [("input_1", ["c"])] []) ],
    edges := [("s", "c", "input_1"), ("c", "a", "input_1"), ("c", "b", "input_1")],
    nodes_not_in_graph := [] }

/-- Operators for `gBranch` (true branch taken). -/
def optBranch : OptFun := fun n _ =>
  if n == "c" then .ok (.dict [("branch", .bool true)]) else .ok (.dict [])

/-- The final state of running `gBranch`: the false-branch node `b` is
never visited. -/
def sBranchFinal : RunState :=
  { queue := [], visited := ["s", "c", "a"],
    values := [("s", .dict []), ("c", .dict [("branch", .bool true)]), ("a", .dict [])] }

/-- Concrete graph with no Start-category node. -/
def gNoStart : ASDiGraph :=
  { nodes := [("m", mkRec "Message" [] [] [])], edges := [], nodes_not_in_graph := [] }

/-- Operators for `gNoStart`. -/
def optNoStart : OptFun := fun _ _ => .ok (.dict [])

/-- Concrete configuration whose participating subgraph is the two-cycle
`a → b → a`. -/
def cfgCyc : ConfigMap :=
  [ ("a", mkRec "Message" [] [("input_1", ["b"])] [("output_1", ["b"])]),
    ("b", mkRec "Message" [] [("input_1", ["a"])] [("output_1", ["a"])]) ]

/-- Concrete configuration for the Copy-dependency claim: `3` is a
CopyNode aliasing the participating node `2`, while the composite `4`
absorbs its dependency `5`. -/
def cfgCopy : ConfigMap :=
  [ ("1", mkRec "start" [] [] [("output_1", ["2"])]),
    ("2", mkRec "Message" [] [("input_1", ["1"])] [("output_1", ["3"])]),
    ("3", mkRec "CopyNode" ["2"] [("input_1", ["2"])] [("output_1", ["4"])]),
    ("5", mkRec "Placeholder" [] [] []),
    ("4", mkRec "SequentialPipeline" ["5"] [("input_1", ["3"])] []) ]

/-- The graph that `build_dag` produces from `cfgCopy`: node `5` is
absorbed (non-participating), the Copy source `2` is not. -/
def gCopyBuilt : ASDiGraph :=
  { nodes :=
      [ ("1", mkRec "start" [] [] [("output_1", ["2"])]),
        ("2", mkRec "Message" [] [("input_1", ["1"])] [("output_1", ["3"])]),
        ("3", mkRec "CopyNode" ["2"] [("input_1", ["2"])] [("output_1", ["4"])]),
        ("5", mkRec "Placeholder" [] [] []),
        ("4", mkRec "SequentialPipeline" ["5"] [("input_1", ["3"])] []) ],
    edges := [("1", "2", "input_1"), ("2", "3", "input_1"), ("3", "4", "input_1")],
    nodes_not_in_graph := ["5"] }

/-- Whether a fallible computation succeeded (no exception raised). -/
def exceptOk {ε : Type _} {α : Type _} : Except ε α → Bool
  | .ok _ => true
  | .error _ => false

/-- Helper: the sanitize filter keeps an argument entry exactly when its
value is not the empty string. -/
theorem isEmptyStr_false_iff (v : PyVal) : isEmptyStr v = false ↔ v ≠ PyVal.str "" := by
  cases v <;> simp [isEmptyStr]

/-- C7: truth table of the condition predicate evaluator: `is empty` is
true on the empty string and on `None` (falsiness of the value), while
`is null` is false on the empty string and true only on `None`
(absence), for every target value. -/
theorem c7_predicate_truth_table (t : PyVal) :
    eval_condition_operator (.str "") "is empty" t = .ok true ∧
    eval_condition_operator .none "is empty" t = .ok true ∧
    eval_condition_operator (.str "") "is null" t = .ok false ∧
    eval_condition_operator .none "is null" t = .ok true :=
  ⟨rfl, rfl, rfl, rfl⟩

/-- C8: `sanitize_node_data` drops exactly the argument entries whose
value is the empty string, and the `source` snapshot holds exactly the
original (non-resolved) argument entries of the remaining keys —
execution later consumes `args` only, `source` being display data. -/
theorem c8_sanitize_args (info : NodeRecord) (k : String) (v : PyVal) :
    ((k, v) ∈ (sanitize_node_data info).args ↔
      ((k, v) ∈ info.args ∧ v ≠ PyVal.str "")) ∧
    ((k, v) ∈ (sanitize_node_data info).source ↔
      ((k, v) ∈ info.args ∧ v ≠ PyVal.str "")) := by
  constructor <;>
    simp [sanitize_node_data, List.mem_filter, isEmptyStr_false_iff]

/-- C5 counterexample: a Switch node with one declared case label accepts
two dependency operators — construction succeeds (the extra operator
becomes the default), contradicting the claim that supplying n+1
dependency operators fails. -/
theorem c5_switch_extra_dep_succeeds_cex :
    exceptOk (SwitchPipelineNode_post_init [PyVal.str "case_1"] ([7, 8] : List Nat)) = true :=
  rfl

/-- C5 (amended): with n case labels, n−1 dependency operators fail
construction (the assertion for zero, the `ValueError` otherwise);
exactly n succeed with the placeholder default; n+1 also succeed, the
final dependency operator becoming the default. -/
theorem c5_switch_arity {α : Type} (cases : List PyVal) (dep_opts : List α) :
    (dep_opts.length + 1 = cases.length →
      exceptOk (SwitchPipelineNode_post_init cases dep_opts) = false) ∧
    (dep_opts.length = cases.length → 0 < cases.length →
      exceptOk (SwitchPipelineNode_post_init cases dep_opts) = true) ∧
    (dep_opts.length = cases.length + 1 →
      exceptOk (SwitchPipelineNode_post_init cases dep_opts) = true) := by
  refine ⟨?_, ?_, ?_⟩
  · intro h
    by_cases h0 : dep_opts.length = 0
    · have e0 : (dep_opts.length == 0) = true := by simp [h0]
      simp [SwitchPipelineNode_post_init, e0, exceptOk]
    · have e0 : (dep_opts.length == 0) = false := by simp [h0]
      have e1 : (dep_opts.length == cases.length) = false := by
        rw [beq_eq_false_iff_ne]; omega
      have e2 : (dep_opts.length == cases.length + 1) = false := by
        rw [beq_eq_false_iff_ne]; omega
      simp [SwitchPipelineNode_post_init, e0, e1, e2, exceptOk]
  · intro h hpos
    have e0 : (dep_opts.length == 0) = false := by
      rw [beq_eq_false_iff_ne]; omega
    have e1 : (dep_opts.length == cases.length) = true := by simp [h]
    simp [SwitchPipelineNode_post_init, e0, e1, exceptOk]
  · intro h
    have e0 : (dep_opts.length == 0) = false := by
      rw [beq_eq_false_iff_ne]; omega
    have e1 : (dep_opts.length == cases.length) = false := by
      rw [beq_eq_false_iff_ne]; omega
    have e2 : (dep_opts.length == cases.length + 1) = true := by simp [h]
    simp [SwitchPipelineNode_post_init, e0, e1, e2, exceptOk]

/-- Witness for the amended C5 theorem at concrete inputs: two case
labels with one dependency fail; one case label with one dependency
succeeds; one case label with two dependencies succeeds. -/
theorem c5_switch_arity_witness :
    exceptOk (SwitchPipelineNode_post_init [PyVal.str "a", PyVal.str "b"] ([0] : List Nat)) = false ∧
    exceptOk (SwitchPipelineNode_post_init [PyVal.str "a"] ([0] : List Nat)) = true ∧
    exceptOk (SwitchPipelineNode_post_init [PyVal.str "a"] ([0, 1] : List Nat)) = true :=
  ⟨(c5_switch_arity [PyVal.str "a", PyVal.str "b"] ([0] : List Nat)).1 (by decide),
   (c5_switch_arity [PyVal.str "a"] ([0] : List Nat)).2.1 (by decide) (by decide),
   (c5_switch_arity [PyVal.str "a"] ([0, 1] : List Nat)).2.2 (by decide)⟩

/-- C10: invoking the IF/ELSE conditional node writes the evaluated
boolean under the key `branch` of its dict input and returns that same
(mutated) dict; invoking it with no input — the `None` default a node
with zero predecessors receives — raises instead of returning a value
with a branch flag. -/
theorem c10_ifelse_mutates_input :
    (∀ condition_op target_value : String,
      exceptOk (IfElseNode_call condition_op target_value Option.none) = false) ∧
    (∀ (condition_op target_value : String) (d : List (String × PyVal)) (b : Bool),
      eval_condition_operator (.dict d) condition_op (.str target_value) = .ok b →
      IfElseNode_call condition_op target_value (some (.dict d)) =
        .ok (.dict (dset d "branch" (.bool b)))) := by
  constructor
  · intro condition_op target_value
    unfold IfElseNode_call
    cases h : eval_condition_operator ((Option.none (α := PyVal)).getD .none)
        condition_op (.str target_value) with
    | error e => simp [h, exceptOk]
    | ok b => simp [h, exceptOk]
  · intro condition_op target_value d b h
    simp [IfElseNode_call, Option.getD] at h ⊢
    rw [h]

/-- Witness for C10 at concrete inputs: the `is empty` predicate on an
empty dict evaluates to true, the call on `None` fails, the call on the
dict returns it with `branch := true`. -/
theorem c10_ifelse_mutates_input_witness :
    exceptOk (IfElseNode_call "is empty" "" Option.none) = false ∧
    IfElseNode_call "is empty" "" (some (.dict [])) =
      .ok (.dict [("branch", .bool true)]) :=
  ⟨c10_ifelse_mutates_input.1 "is empty" "",
   c10_ifelse_mutates_input.2 "is empty" "" [] true rfl⟩

/-- Helper: a member of `startNodeIds` has operator category `START`. -/
theorem startNodeIds_isStart (g : ASDiGraph) (n : String) (h : n ∈ startNodeIds g) :
    g.nodeTypeOf n = some WorkflowNodeType.START := by
  unfold startNodeIds at h
  have := (List.mem_filter.mp h).2
  simpa using this

/-- Helper: a node with an attribute record is a declared entry. -/
theorem findNode_mem (g : ASDiGraph) (n : String) (info : NodeRecord)
    (h : g.findNode n = some info) : ∃ p ∈ g.nodes, p.1 = n ∧ p.2 = info := by
  unfold ASDiGraph.findNode at h
  cases hf : g.nodes.find? (fun p => p.1 == n) with
  | none => rw [hf] at h; cases h
  | some p =>
    rw [hf] at h
    have hp := List.mem_of_find?_eq_some hf
    have hpred := List.find?_some hf
    refine ⟨p, hp, by simpa using hpred, by simpa using h⟩

/-- C6: a built (hence acyclic) graph with no Start-category node makes
`run` fail with the fatal "No start node found!" error; the conclusion
holds for every operator assignment, so the failure precedes any
operator invocation. -/
theorem c6_no_start_error (g : ASDiGraph) (hdag : isDAGcheckB g = true)
    (hnostart : ∀ p ∈ g.nodes, nodeTypeOfName (p.2).name ≠ some WorkflowNodeType.START)
    (opt : OptFun) (fuel : Nat) :
    ASDiGraph.run g opt fuel = .error "No start node found!" := by
  have hs : startNodeIds g = [] := by
    rcases hs : startNodeIds g with _ | ⟨n, rest⟩
    · rfl
    · exfalso
      have hn : n ∈ startNodeIds g := by rw [hs]; exact List.mem_cons_self n rest
      have h1 := startNodeIds_isStart g n hn
      unfold ASDiGraph.nodeTypeOf at h1
      cases hf : g.findNode n with
      | none => rw [hf] at h1; cases h1
      | some info =>
        rw [hf] at h1
        obtain ⟨p, hp, _, hpe⟩ := findNode_mem g n info hf
        exact hnostart p hp (by rw [hpe]; simpa using h1)
  simp [ASDiGraph.run, hdag, hs]

/-- Witness for C6: a one-node graph whose only node is a Message node. -/
theorem c6_no_start_error_witness :
    ASDiGraph.run gNoStart optNoStart 5 = .error "No start node found!" :=
  c6_no_start_error gNoStart rfl (by decide) optNoStart 5

/-- Helper for C1: from the stuck state (the join node `d` alone in the
queue, its pruned predecessor `b` unvisited forever) every step of the
loop re-enqueues `d` and returns to the same state, so no amount of fuel
finishes the loop. -/
theorem runLoop_gJoin_stuck (k : Nat) :
    runLoop gJoin optJoin k sJoinStuck = .outOfFuel sJoinStuck := by
  induction k with
  | zero => rfl
  | succ k ih =>
    have h : runLoop gJoin optJoin (k + 1) sJoinStuck =
        runLoop gJoin optJoin k sJoinStuck := rfl
    rw [h, ih]

/-- C1 (divergence): `cfgJoin` is a legal acyclic configuration with
exactly one Start node, built by `build_dag` into `gJoin`; yet `run`
never terminates on it: the conditional prunes branch `b`, the join node
`d` keeps a predecessor that will never be visited, and the loop
re-enqueues `d` forever — for every amount of fuel the traversal is
still running. -/
theorem c1_run_branch_join_diverges :
    build_dag cfgJoin = .ok gJoin ∧
    isDAGcheckB gJoin = true ∧
    startNodeIds gJoin = ["s"] ∧
    ∀ fuel : Nat, (ASDiGraph.run gJoin optJoin fuel).isOutOfFuel = true := by
  refine ⟨rfl, rfl, rfl, ?_⟩
  intro fuel
  match fuel with
  | 0 => rfl
  | 1 => rfl
  | 2 => rfl
  | k + 3 =>
    show (runLoop gJoin optJoin k sJoinStuck).isOutOfFuel = true
    rw [runLoop_gJoin_stuck k]
    rfl

/-- Helper: looking up the key just assigned yields the assigned value. -/
theorem vlookup_vset_self (vs : Values) (k : String) (v : PyVal) :
    vlookup (vset vs k v) k = some v := by
  induction vs with
  | nil => simp [vset, vlookup, List.find?]
  | cons p ps ih =>
    by_cases h : p.1 = k
    · have hb : (p.1 == k) = true := by simp [h]
      simp [vset, hb, vlookup, List.find?]
    · have hb : (p.1 == k) = false := by simp [h]
      simpa [vset, hb, vlookup, List.find?] using ih

/-- Helper: assignment does not disturb other keys. -/
theorem vlookup_vset_ne (vs : Values) (k k' : String) (v : PyVal) (h : k' ≠ k) :
    vlookup (vset vs k v) k' = vlookup vs k' := by
  induction vs with
  | nil =>
    have hb : (k == k') = false := by simp; exact fun he => h he.symm
    simp [vset, vlookup, List.find?, hb]
  | cons p ps ih =>
    by_cases hp : p.1 = k
    · have hpb : (p.1 == k) = true := by simp [hp]
      have h1 : (k == k') = false := by simp; exact fun he => h he.symm
      have h2 : (p.1 == k') = false := by rw [hp]; simpa using h1
      simp [vset, hpb, vlookup, List.find?, h1, h2]
    · have hpb : (p.1 == k) = false := by simp [hp]
      by_cases hk : p.1 = k'
      · have hkb : (p.1 == k') = true := by simp [hk]
        simp [vset, hpb, vlookup, List.find?, hkb]
      · have hkb : (p.1 == k') = false := by simp [hk]
        simpa [vset, hpb, vlookup, List.find?, hkb] using ih

/-- Helper: a key defined after an assignment is the assigned key or was
defined before. -/
theorem vlookup_vset_isSome (vs : Values) (k0 k : String) (v : PyVal)
    (h : (vlookup (vset vs k0 v) k).isSome = true) :
    k = k0 ∨ (vlookup vs k).isSome = true := by
  by_cases hk : k = k0
  · exact Or.inl hk
  · right; rwa [vlookup_vset_ne vs k0 k v hk] at h

/-- Helper: assigning a fresh key preserves every defined entry. -/
theorem vset_ext (vs : Values) (k0 : String) (v : PyVal)
    (h0 : vlookup vs k0 = Option.none) (k : String) (w : PyVal)
    (h : vlookup vs k = some w) : vlookup (vset vs k0 v) k = some w := by
  by_cases hk : k = k0
  · rw [hk, h0] at h; cases h
  · rw [vlookup_vset_ne vs k0 k v hk]; exact h

/-- Helper: the live successor relation is monotone under extending the
output cache (outputs are written once and never overwritten). -/
theorem liveSuccs_mono (g : ASDiGraph) (va vb : Values)
    (hext : ∀ k w, vlookup va k = some w → vlookup vb k = some w)
    (n m : String) (hm : m ∈ liveSuccs g va n) : m ∈ liveSuccs g vb n := by
  cases hf : g.findNode n with
  | none => simp only [liveSuccs, hf] at hm; cases hm
  | some info =>
    simp only [liveSuccs, hf] at hm ⊢
    by_cases hty : nodeTypeOfName info.name = some WorkflowNodeType.IFELSE
    · simp only [if_pos hty] at hm ⊢
      cases hv : vlookup va n with
      | none => simp only [hv] at hm; cases hm
      | some out =>
        simp only [hv] at hm
        simp only [hext n out hv]
        exact hm
    · simp only [if_neg hty] at hm ⊢
      exact hm

/-- Helper: taken-reachability is monotone under extending the cache. -/
theorem TakenReach_mono (g : ASDiGraph) (va vb : Values)
    (hext : ∀ k w, vlookup va k = some w → vlookup vb k = some w)
    (x : String) (h : TakenReach g va x) : TakenReach g vb x := by
  induction h with
  | start n hn => exact .start n hn
  | step n m _ hm ih => exact .step n m ih (liveSuccs_mono g va vb hext n m hm)

/-- Helper: the children actually enqueued after executing a node are
exactly its live successors once its output is cached. -/
theorem childrenOf_liveSuccs (g : ASDiGraph) (info : NodeRecord) (n : String)
    (out : PyVal) (children : List String)
    (hfn : g.findNode n = some info)
    (hch : childrenOf g info n out = .ok children)
    (values : Values) (hv : vlookup values n = some out) :
    liveSuccs g values n = children := by
  by_cases hty : nodeTypeOfName info.name = some WorkflowNodeType.IFELSE
  · simp only [childrenOf, if_pos hty] at hch
    cases hb : getBranch out with
    | error e => simp only [hb] at hch; cases hch
    | ok b =>
      simp only [hb] at hch
      cases hop : outputsPort info (if b then "output_1" else "output_2") with
      | error e => simp only [hop] at hch; cases hch
      | ok conns =>
        simp only [hop] at hch
        cases hch
        simp only [liveSuccs, hfn, if_pos hty, hv, hb, hop]
  · simp only [childrenOf, if_neg hty] at hch
    cases hch
    simp only [liveSuccs, hfn, if_neg hty]

/-- Helper: preservation of the taken-reachability invariant by one step
of the ready-queue loop. -/
theorem runStep_taken_inv (g : ASDiGraph) (opt : OptFun) (s s' : RunState)
    (hq : ∀ x ∈ s.queue, TakenReach g s.values x)
    (hv : ∀ x ∈ s.visited, TakenReach g s.values x)
    (hk : ∀ k, (vlookup s.values k).isSome = true → k ∈ s.visited)
    (hstep : runStep g opt s = .ok s') :
    (∀ x ∈ s'.queue, TakenReach g s'.values x) ∧
    (∀ x ∈ s'.visited, TakenReach g s'.values x) ∧
    (∀ k, (vlookup s'.values k).isSome = true → k ∈ s'.visited) := by
  cases hqs : s.queue with
  | nil =>
    simp only [runStep, hqs] at hstep
    cases hstep
    exact ⟨hq, hv, hk⟩
  | cons n rest =>
    have hqn : n ∈ s.queue := by rw [hqs]; exact List.mem_cons_self n rest
    have hqrest : ∀ x ∈ rest, x ∈ s.queue := by
      intro x hx; rw [hqs]; exact List.mem_cons_of_mem n hx
    simp only [runStep, hqs] at hstep
    split at hstep
    · -- already visited: drop from the queue
      cases hstep
      exact ⟨fun x hx => hq x (hqrest x hx), hv, hk⟩
    · rename_i hnvis
      split at hstep
      · -- ready: execute
        cases hfn : g.findNode n with
        | none => simp only [hfn] at hstep; cases hstep
        | some info =>
          simp only [hfn] at hstep
          cases hmm : (g.predecessors n).mapM (fun p => vlookup s.values p) with
          | none => simp only [hmm] at hstep; cases hstep
          | some inputs =>
            simp only [hmm] at hstep
            cases hopt : opt n (mkXIn inputs) with
            | error e => simp only [hopt] at hstep; cases hstep
            | ok out =>
              simp only [hopt] at hstep
              cases hch : childrenOf g info n out with
              | error e => simp only [hch] at hstep; cases hstep
              | ok children =>
                simp only [hch] at hstep
                cases hstep
                have hn0 : vlookup s.values n = Option.none := by
                  cases hvn : vlookup s.values n with
                  | none => rfl
                  | some w =>
                    exact absurd (hk n (by rw [hvn]; rfl)) hnvis
                have hext := vset_ext s.values n out hn0
                have hmono := TakenReach_mono g s.values (vset s.values n out) hext
                have hvnew : vlookup (vset s.values n out) n = some out :=
                  vlookup_vset_self s.values n out
                have hreach_n : TakenReach g (vset s.values n out) n :=
                  hmono n (hq n hqn)
                have hlive := childrenOf_liveSuccs g info n out children hfn hch
                  (vset s.values n out) hvnew
                refine ⟨?_, ?_, ?_⟩
                · intro x hx
                  rcases List.mem_append.mp hx with hx | hx
                  · exact hmono x (hq x (hqrest x hx))
                  · have hxc : x ∈ children := (List.mem_filter.mp hx).1
                    exact .step n x hreach_n (by rw [hlive]; exact hxc)
                · intro x hx
                  rcases List.mem_append.mp hx with hx | hx
                  · exact hmono x (hv x hx)
                  · have hx' : x = n := by simpa using hx
                    rw [hx']
                    exact hreach_n
                · intro k hks
                  rcases vlookup_vset_isSome s.values n k out hks with rfl | hks
                  · exact List.mem_append.mpr (Or.inr (List.mem_singleton.mpr rfl))
                  · exact List.mem_append.mpr (Or.inl (hk k hks))
      · -- not ready: re-enqueue at the back
        cases hstep
        refine ⟨?_, hv, hk⟩
        intro x hx
        rcases List.mem_append.mp hx with hx | hx
        · exact hq x (hqrest x hx)
        · have hx' : x = n := by simpa using hx
          rw [hx']
          exact hq n hqn

/-- Helper: any property preserved by `runStep` holds at the final state
of a finished loop. -/
theorem runLoop_inv (g : ASDiGraph) (opt : OptFun) (P : RunState → Prop)
    (hstep : ∀ s s', P s → runStep g opt s = .ok s' → P s') :
    ∀ (fuel : Nat) (s s' : RunState), P s → runLoop g opt fuel s = .finished s' → P s' := by
  intro fuel
  induction fuel with
  | zero =>
    intro s s' hP hrun
    unfold runLoop at hrun
    split at hrun
    · cases hrun; exact hP
    · cases hrun
  | succ k ih =>
    intro s s' hP hrun
    unfold runLoop at hrun
    split at hrun
    · cases hrun; exact hP
    · cases h : runStep g opt s with
      | error e => rw [h] at hrun; cases hrun
      | ok s1 => rw [h] at hrun; exact ih s1 s' (hstep s s1 hP h) hrun

/-- C2: branch-exclusive fan-out.  In every finished run, every visited
(hence invoked) node is reachable from the start seeds along the live
successor relation: after an IF/ELSE node only the connection targets of
the output port selected by the branch flag of its cached output are ever
enqueued, so a node reachable only through the untaken port — which is
not in the `TakenReach` closure — is never invoked, symmetrically for
the true and false branches. -/
theorem c2_branch_exclusive_fanout (g : ASDiGraph) (opt : OptFun) (fuel : Nat)
    (s : RunState) (hrun : ASDiGraph.run g opt fuel = .finished s) :
    ∀ m ∈ s.visited, TakenReach g s.values m := by
  unfold ASDiGraph.run at hrun
  split at hrun
  case isFalse => cases hrun
  case isTrue =>
    split at hrun
    case isTrue => cases hrun
    case isFalse =>
      have hinv := runLoop_inv g opt
        (fun t => (∀ x ∈ t.queue, TakenReach g t.values x) ∧
                  (∀ x ∈ t.visited, TakenReach g t.values x) ∧
                  (∀ k, (vlookup t.values k).isSome = true → k ∈ t.visited))
        (fun t t' hP hst => runStep_taken_inv g opt t t' hP.1 hP.2.1 hP.2.2 hst)
        fuel { queue := startNodeIds g, visited := [], values := [] } s
        ⟨fun x hx => TakenReach.start x hx,
         fun x hx => absurd hx (List.not_mem_nil x),
         fun k hks => by simp [vlookup, List.find?] at hks⟩
        hrun
      exact fun m hm => hinv.2.1 m hm

/-- Witness for C2 on `gBranch`: the run finishes having visited the
taken-branch node `a`, and `a` is in the taken-reachability closure of
the final cache. -/
theorem c2_branch_exclusive_fanout_witness :
    TakenReach gBranch sBranchFinal.values "a" :=
  c2_branch_exclusive_fanout gBranch optBranch 20 sBranchFinal rfl "a" (by decide)

/-- C3 counterexample: in `gRoot` the node `m` is a participating root
(in-degree zero) of Message category — neither Start nor Model — yet the
run finishes without ever scheduling or invoking it, because only Start
roots seed the queue and an in-degree-zero node is never anyone's
successor. -/
theorem c3_nonstart_root_not_invoked_cex :
    ASDiGraph.run gRoot optRoot 10 = .finished sRootFinal ∧
    "m" ∈ participatingList gRoot ∧
    gRoot.inDegree "m" = 0 ∧
    gRoot.nodeTypeOf "m" = some WorkflowNodeType.MESSAGE ∧
    "m" ∉ sRootFinal.visited :=
  ⟨rfl, by decide, rfl, rfl, by decide⟩

/-- Helper: an edge into a node gives it positive in-degree. -/
theorem inDegree_pos_of_edge (g : ASDiGraph) (u v : String)
    (h : hasEdgePairB g.edges u v = true) : 1 ≤ g.inDegree v := by
  obtain ⟨e, he, hee⟩ := List.any_eq_true.mp h
  have h2 : (e.2.1 == v) = true := ((Bool.and_eq_true _ _).mp hee).2
  have hmem : e ∈ g.edges.filter (fun e => e.2.1 == v) := List.mem_filter.mpr ⟨he, h2⟩
  have hne := List.ne_nil_of_mem hmem
  have := List.length_pos.mpr hne
  unfold ASDiGraph.inDegree
  omega

/-- Helper: a graph successor has positive in-degree. -/
theorem successors_inDegree (g : ASDiGraph) (n c : String)
    (h : c ∈ g.successors n) : 1 ≤ g.inDegree c := by
  unfold ASDiGraph.successors at h
  obtain ⟨e, he, hec⟩ := List.mem_map.mp h
  have he' := List.mem_filter.mp he
  apply inDegree_pos_of_edge g e.1 c
  exact List.any_eq_true.mpr ⟨e, he'.1, by simp [hec]⟩

/-- Helper: in a graph whose output ports mirror the edges, every id the
traversal enqueues after a node has positive in-degree. -/
theorem childrenOf_inDegree (g : ASDiGraph) (info : NodeRecord) (n : String)
    (out : PyVal) (children : List String)
    (hm : OutputsMirroredB g = true)
    (hfn : g.findNode n = some info)
    (hch : childrenOf g info n out = .ok children) :
    ∀ c ∈ children, 1 ≤ g.inDegree c := by
  intro c hc
  by_cases hty : nodeTypeOfName info.name = some WorkflowNodeType.IFELSE
  · simp only [childrenOf, if_pos hty] at hch
    cases hb : getBranch out with
    | error e => simp only [hb] at hch; cases hch
    | ok b =>
      simp only [hb] at hch
      unfold outputsPort at hch
      cases hop : info.outputs.find?
          (fun p => p.1 == (if b then "output_1" else "output_2")) with
      | none => rw [hop] at hch; cases hch
      | some pc =>
        rw [hop] at hch
        cases hch
        have hpc := List.mem_of_find?_eq_some hop
        obtain ⟨pr, hpr, hpr1, hpr2⟩ := findNode_mem g n info hfn
        have hall := List.all_eq_true.mp hm pr hpr
        have hall2 := List.all_eq_true.mp hall pc (by rw [hpr2]; exact hpc)
        have hall3 := List.all_eq_true.mp hall2 c hc
        exact inDegree_pos_of_edge g pr.1 c hall3
  · simp only [childrenOf, if_neg hty] at hch
    cases hch
    exact successors_inDegree g n c hc

/-- Helper: preservation of the root-category invariant (everything ever
queued or visited is a Start node or has a predecessor) by one step of
the loop, for output-mirrored graphs. -/
theorem runStep_root_inv (g : ASDiGraph) (opt : OptFun) (s s' : RunState)
    (hm : OutputsMirroredB g = true)
    (hI : ∀ x, x ∈ s.queue ∨ x ∈ s.visited →
      g.nodeTypeOf x = some WorkflowNodeType.START ∨ 1 ≤ g.inDegree x)
    (hstep : runStep g opt s = .ok s') :
    ∀ x, x ∈ s'.queue ∨ x ∈ s'.visited →
      g.nodeTypeOf x = some WorkflowNodeType.START ∨ 1 ≤ g.inDegree x := by
  cases hqs : s.queue with
  | nil =>
    simp only [runStep, hqs] at hstep
    cases hstep
    exact hI
  | cons n rest =>
    have hqn : n ∈ s.queue := by rw [hqs]; exact List.mem_cons_self n rest
    have hqrest : ∀ x ∈ rest, x ∈ s.queue := by
      intro x hx; rw [hqs]; exact List.mem_cons_of_mem n hx
    simp only [runStep, hqs] at hstep
    split at hstep
    · cases hstep
      intro x hx
      rcases hx with hx | hx
      · exact hI x (Or.inl (hqrest x hx))
      · exact hI x (Or.inr hx)
    · split at hstep
      · cases hfn : g.findNode n with
        | none => simp only [hfn] at hstep; cases hstep
        | some info =>
          simp only [hfn] at hstep
          cases hmm : (g.predecessors n).mapM (fun p => vlookup s.values p) with
          | none => simp only [hmm] at hstep; cases hstep
          | some inputs =>
            simp only [hmm] at hstep
            cases hopt : opt n (mkXIn inputs) with
            | error e => simp only [hopt] at hstep; cases hstep
            | ok out =>
              simp only [hopt] at hstep
              cases hch : childrenOf g info n out with
              | error e => simp only [hch] at hstep; cases hstep
              | ok children =>
                simp only [hch] at hstep
                cases hstep
                have hcdeg := childrenOf_inDegree g info n out children hm hfn hch
                intro x hx
                rcases hx with hx | hx
                · rcases List.mem_append.mp hx with hx | hx
                  · exact hI x (Or.inl (hqrest x hx))
                  · exact Or.inr (hcdeg x (List.mem_filter.mp hx).1)
                · rcases List.mem_append.mp hx with hx | hx
                  · exact hI x (Or.inr hx)
                  · have hx' : x = n := by simpa using hx
                    rw [hx']
                    exact hI n (Or.inl hqn)
      · cases hstep
        intro x hx
        rcases hx with hx | hx
        · rcases List.mem_append.mp hx with hx | hx
          · exact hI x (Or.inl (hqrest x hx))
          · have hx' : x = n := by simpa using hx
            rw [hx']
            exact hI n (Or.inl hqn)
        · exact hI x (Or.inr hx)

/-- C3 (amended): a participating root whose category is not Start is
never scheduled at all.  Only Start roots seed the ready queue, every id
later enqueued is a successor (hence has positive in-degree), so on
every finished run of an output-mirrored graph an in-degree-zero node
whose category is not Start is absent from the visited set — its
operator is never invoked.  (Model roots are a special case of this.) -/
theorem c3_nonstart_root_never_scheduled (g : ASDiGraph) (opt : OptFun)
    (fuel : Nat) (s : RunState) (n : String) (info : NodeRecord)
    (hm : OutputsMirroredB g = true)
    (hrun : ASDiGraph.run g opt fuel = .finished s)
    (hfn : g.findNode n = some info)
    (hnstart : nodeTypeOfName info.name ≠ some WorkflowNodeType.START)
    (hroot : g.inDegree n = 0) :
    n ∉ s.visited := by
  intro hns
  unfold ASDiGraph.run at hrun
  split at hrun
  case isFalse => cases hrun
  case isTrue =>
    split at hrun
    case isTrue => cases hrun
    case isFalse =>
      have hinv := runLoop_inv g opt
        (fun t => ∀ x, x ∈ t.queue ∨ x ∈ t.visited →
          g.nodeTypeOf x = some WorkflowNodeType.START ∨ 1 ≤ g.inDegree x)
        (fun t t' hP hst => runStep_root_inv g opt t t' hm hP hst)
        fuel { queue := startNodeIds g, visited := [], values := [] } s
        (by
          intro x hx
          rcases hx with hx | hx
          · exact Or.inl (startNodeIds_isStart g x hx)
          · cases hx)
        hrun
      rcases hinv n (Or.inr hns) with h | h
      · apply hnstart
        unfold ASDiGraph.nodeTypeOf at h
        rw [hfn] at h
        simpa using h
      · omega

/-- Witness for the amended C3 theorem on `gRoot`: the Message root `m`
is not visited. -/
theorem c3_nonstart_root_never_scheduled_witness :
    ("m" : String) ∉ sRootFinal.visited :=
  c3_nonstart_root_never_scheduled gRoot optRoot 10 sRootFinal "m"
    (mkRec "Message" [] [] []) (by decide) rfl rfl (by decide) rfl

/-- Helper: `add_edge` preserves every existing (source, target) pair. -/
theorem addEdge_keeps (g : ASDiGraph) (a b k u v : String)
    (h : hasEdgePairB g.edges u v = true) :
    hasEdgePairB (g.addEdge a b k).edges u v = true := by
  unfold ASDiGraph.addEdge
  split
  · obtain ⟨e, he, hee⟩ := List.any_eq_true.mp h
    have h1 : e.1 = u := by simpa using ((Bool.and_eq_true _ _).mp hee).1
    have h2 : e.2.1 = v := by simpa using ((Bool.and_eq_true _ _).mp hee).2
    apply List.any_eq_true.mpr
    refine ⟨(fun e => if e.1 == a && e.2.1 == b then (a, b, k) else e) e,
      List.mem_map_of_mem _ he, ?_⟩
    by_cases hmatch : (e.1 == a && e.2.1 == b) = true
    · have ha : e.1 = a := by simpa using ((Bool.and_eq_true _ _).mp hmatch).1
      have hb2 : e.2.1 = b := by simpa using ((Bool.and_eq_true _ _).mp hmatch).2
      simp only [hmatch, if_true]
      simp [← ha, ← hb2, h1, h2]
    · have hm' : (e.1 == a && e.2.1 == b) = false := by
        rwa [Bool.not_eq_true] at hmatch
      simp only [hm', if_false]
      exact hee
  · apply List.any_eq_true.mpr
    obtain ⟨e, he, hee⟩ := List.any_eq_true.mp h
    exact ⟨e, List.mem_append.mpr (Or.inl he), hee⟩

/-- Helper: after `add_edge(a, b)` the pair (a, b) is present. -/
theorem addEdge_self (g : ASDiGraph) (a b k : String) :
    hasEdgePairB (g.addEdge a b k).edges a b = true := by
  unfold ASDiGraph.addEdge
  split
  · rename_i hex
    obtain ⟨e, he, hee⟩ := List.any_eq_true.mp hex
    apply List.any_eq_true.mpr
    refine ⟨(fun e => if e.1 == a && e.2.1 == b then (a, b, k) else e) e,
      List.mem_map_of_mem _ he, ?_⟩
    simp only [hee, if_true]
    simp
  · apply List.any_eq_true.mpr
    exact ⟨(a, b, k), List.mem_append.mpr (Or.inr (by simp)), by simp⟩

/-- Helper: the connection fold of the edge pass preserves pairs. -/
theorem foldl_addEdge_keeps (nodeId key : String) (conns : List String) :
    ∀ (g : ASDiGraph) (u v : String), hasEdgePairB g.edges u v = true →
    hasEdgePairB ((conns.foldl (fun g src => g.addEdge src nodeId key) g).edges) u v = true := by
  induction conns with
  | nil => intro g u v h; exact h
  | cons c cs ih =>
    intro g u v h
    exact ih _ u v (addEdge_keeps g c nodeId key u v h)

/-- Helper: the connection fold adds an edge for every listed source. -/
theorem foldl_addEdge_adds (nodeId key : String) (conns : List String) :
    ∀ (g : ASDiGraph) (u : String), u ∈ conns →
    hasEdgePairB ((conns.foldl (fun g src => g.addEdge src nodeId key) g).edges) u nodeId = true := by
  induction conns with
  | nil => intro g u h; cases h
  | cons c cs ih =>
    intro g u h
    rcases List.mem_cons.mp h with rfl | h
    · exact foldl_addEdge_keeps nodeId key cs (g.addEdge u nodeId key) u nodeId
        (addEdge_self g u nodeId key)
    · exact ih _ u h

/-- Helper: the input-port pass preserves pairs. -/
theorem addInputEdges_keeps (nodeId : String) (inputs : List (String × List String)) :
    ∀ (g : ASDiGraph) (u v : String), hasEdgePairB g.edges u v = true →
    hasEdgePairB ((addInputEdges nodeId inputs g).edges) u v = true := by
  induction inputs with
  | nil => intro g u v h; exact h
  | cons pc rest ih =>
    intro g u v h
    obtain ⟨key, conns⟩ := pc
    exact ih _ u v (foldl_addEdge_keeps nodeId key conns g u v h)

/-- Helper: the input-port pass adds every declared connection. -/
theorem addInputEdges_adds (nodeId : String) (inputs : List (String × List String)) :
    ∀ (g : ASDiGraph) (port : String) (conns : List String) (u : String),
    (port, conns) ∈ inputs → u ∈ conns →
    hasEdgePairB ((addInputEdges nodeId inputs g).edges) u nodeId = true := by
  induction inputs with
  | nil => intro g port conns u h _; cases h
  | cons pc rest ih =>
    intro g port conns u h hu
    rcases List.mem_cons.mp h with heq | htail
    · rw [← heq]
      exact addInputEdges_keeps nodeId rest _ u nodeId
        (foldl_addEdge_adds nodeId port conns g u hu)
    · obtain ⟨key, cs⟩ := pc
      exact ih _ port conns u htail hu

/-- Helper: the whole edge pass preserves pairs. -/
theorem addAllEdges_keeps (config : ConfigMap) :
    ∀ (g : ASDiGraph) (u v : String), hasEdgePairB g.edges u v = true →
    hasEdgePairB ((addAllEdges config g).edges) u v = true := by
  induction config with
  | nil => intro g u v h; exact h
  | cons p rest ih =>
    intro g u v h
    obtain ⟨nodeId, info⟩ := p
    exact ih _ u v (addInputEdges_keeps nodeId info.inputs g u v h)

/-- Helper: after the edge pass, every input-declared pair is an edge. -/
theorem addAllEdges_complete (config : ConfigMap) :
    ∀ (g : ASDiGraph) (u v : String), inputPairB config u v = true →
    hasEdgePairB ((addAllEdges config g).edges) u v = true := by
  induction config with
  | nil => intro g u v h; simp [inputPairB] at h
  | cons p rest ih =>
    intro g u v h
    obtain ⟨nodeId, info⟩ := p
    simp only [inputPairB, List.any_cons] at h
    rcases Bool.or_eq_true_iff.mp h with h | h
    · have hid : nodeId = v := by simpa using ((Bool.and_eq_true _ _).mp h).1
      obtain ⟨pc, hpc, hpcu⟩ := List.any_eq_true.mp ((Bool.and_eq_true _ _).mp h).2
      have hu : u ∈ pc.2 := by
        obtain ⟨src, hsrc, hsu⟩ := List.any_eq_true.mp hpcu
        have : src = u := by simpa using hsu
        rwa [this] at hsrc
      subst hid
      exact addAllEdges_keeps rest _ u nodeId
        (addInputEdges_adds nodeId info.inputs g pc.1 pc.2 u hpc hu)
    · exact ih _ u v h

/-- Helper: sanitizing the records does not change the declared input
connections, hence not the edge pairs the edge pass will add. -/
theorem inputPairB_sanitize (config : ConfigMap) (u v : String) :
    inputPairB (sanitizeConfig config) u v = inputPairB config u v := by
  unfold inputPairB sanitizeConfig
  rw [List.any_map]
  rfl

/-- Helper: inversion of a successful `build_dag`: the final acyclicity
check passed, and every input-declared pair of the configuration is an
edge of the returned graph. -/
theorem build_dag_ok_parts (config : ConfigMap) (g : ASDiGraph)
    (h : build_dag config = .ok g) :
    isDAGcheckB g = true ∧
    ∀ u v, inputPairB config u v = true → hasEdgePairB g.edges u v = true := by
  unfold build_dag at h
  cases h1 : buildPhase (sanitizeConfig config) true (sanitizeConfig config)
      ASDiGraph.empty with
  | error e => rw [h1] at h; cases h
  | ok g1 =>
    simp only [h1] at h
    cases h2 : buildPhase (sanitizeConfig config) false (sanitizeConfig config) g1 with
    | error e => simp only [h2] at h; cases h
    | ok g2 =>
      simp only [h2] at h
      split at h
      · rename_i hdag
        cases h
        refine ⟨hdag, ?_⟩
        intro u v hpair
        have hsan : inputPairB (sanitizeConfig config) u v = true := by
          rwa [inputPairB_sanitize]
        exact addAllEdges_complete (sanitizeConfig config) g2 u v hsan
      · cases h

/-- Helper: pairing each element of a list with its cyclic predecessor. -/
theorem zip_pred_of_mem {α : Type} (l1 l2 : List α) (h : l1.length = l2.length)
    (x : α) (hx : x ∈ l2) : ∃ m, (m, x) ∈ l1.zip l2 ∧ m ∈ l1 := by
  induction l2 generalizing l1 with
  | nil => cases hx
  | cons b bs ih =>
    cases l1 with
    | nil => simp at h
    | cons a as =>
      rcases List.mem_cons.mp hx with rfl | hx
      · exact ⟨a, by simp, List.mem_cons_self a as⟩
      · have h' : as.length = bs.length := by simpa using h
        obtain ⟨m, hm1, hm2⟩ := ih as h' hx
        exact ⟨m, List.mem_cons_of_mem _ hm1, List.mem_cons_of_mem _ hm2⟩

/-- Helper: every node of a cycle has a predecessor inside the cycle. -/
theorem cycle_pred (P : String → String → Prop) (c : List String)
    (hc : CycleRelList P c) (x : String) (hx : x ∈ c) : ∃ m ∈ c, P m x := by
  have hlen : c.length = (c.rotate 1).length := (List.length_rotate c 1).symm
  have hx' : x ∈ c.rotate 1 := List.mem_rotate.mpr hx
  obtain ⟨m, hm1, hm2⟩ := zip_pred_of_mem c (c.rotate 1) hlen x hx'
  exact ⟨m, hm2, hc.2 (m, x) hm1⟩

/-- Helper: Kahn-style peeling never removes the nodes of a cycle. -/
theorem peel_keeps_cycle (edges : List EdgeT) (c : List String)
    (hc : CycleRelList (fun u v => hasEdgePairB edges u v = true) c) :
    ∀ (k : Nat) (r : List String), (∀ x ∈ c, x ∈ r) →
    ∀ x ∈ c, x ∈ peelIter edges k r := by
  intro k
  induction k with
  | zero => intro r hr; exact hr
  | succ k ih =>
    intro r hr
    show ∀ x ∈ c, x ∈ peelIter edges k (peelStep edges r)
    apply ih
    intro x hx
    obtain ⟨m, hm, hP⟩ := cycle_pred _ c hc x hx
    unfold peelStep
    apply List.mem_filter.mpr
    refine ⟨hr x hx, ?_⟩
    obtain ⟨e, he, hee⟩ := List.any_eq_true.mp hP
    have h1 : e.1 = m := by simpa using ((Bool.and_eq_true _ _).mp hee).1
    have h2 : (e.2.1 == x) = true := ((Bool.and_eq_true _ _).mp hee).2
    apply List.any_eq_true.mpr
    refine ⟨e, he, (Bool.and_eq_true _ _).mpr ⟨h2, ?_⟩⟩
    apply List.any_eq_true.mpr
    exact ⟨m, hr m hm, by simp [h1]⟩

/-- Helper: a graph with a cycle among its edges fails the acyclicity
check. -/
theorem cycle_not_dag (g : ASDiGraph) (c : List String)
    (hc : CycleRelList (fun u v => hasEdgePairB g.edges u v = true) c) :
    isDAGcheckB g = false := by
  obtain ⟨x0, hx0⟩ := List.exists_mem_of_ne_nil c hc.1
  have hsub : ∀ x ∈ c, x ∈ dagNodeList g := by
    intro x hx
    obtain ⟨m, _, hP⟩ := cycle_pred _ c hc x hx
    obtain ⟨e, he, hee⟩ := List.any_eq_true.mp hP
    have h2 : e.2.1 = x := by simpa using ((Bool.and_eq_true _ _).mp hee).2
    unfold dagNodeList
    exact List.mem_append.mpr (Or.inr (h2 ▸ List.mem_map_of_mem _ he))
  have hmem := peel_keeps_cycle g.edges c hc (dagNodeList g).length
    (dagNodeList g) hsub x0 hx0
  unfold isDAGcheckB
  cases hres : peelIter g.edges (dagNodeList g).length (dagNodeList g) with
  | nil => rw [hres] at hmem; cases hmem
  | cons y ys => rfl

/-- C4: a configuration whose participating subgraph contains a cycle
never yields a graph: either node construction already fails, or the
final `is_directed_acyclic_graph` check fails (the participating cycle is
a cycle of the full built edge set) and `build_dag` raises instead of
returning the partially constructed graph. -/
theorem c4_cycle_build_fails (config : ConfigMap) (c : List String)
    (hcyc : CycleRelList (fun u v => participatingPairB config u v = true) c) :
    exceptOk (build_dag config) = false := by
  cases hb : build_dag config with
  | error e => rfl
  | ok g =>
    exfalso
    obtain ⟨hdag, hcomplete⟩ := build_dag_ok_parts config g hb
    have hc' : CycleRelList (fun u v => hasEdgePairB g.edges u v = true) c := by
      refine ⟨hcyc.1, ?_⟩
      intro p hp
      have hpart := hcyc.2 p hp
      have hip : inputPairB config p.1 p.2 = true :=
        ((Bool.and_eq_true _ _).mp ((Bool.and_eq_true _ _).mp hpart).1).1
      exact hcomplete p.1 p.2 hip
    have hfalse := cycle_not_dag g c hc'
    rw [hdag] at hfalse
    cases hfalse

/-- Witness for C4: the two-node configuration whose participating nodes
form the cycle a → b → a fails `build_dag`. -/
theorem c4_cycle_build_fails_witness : exceptOk (build_dag cfgCyc) = false :=
  c4_cycle_build_fails cfgCyc ["a", "b"] (by unfold CycleRelList; decide)

/-- Helper: adding an edge never touches `nodes_not_in_graph`. -/
theorem addEdge_notIn (g : ASDiGraph) (u v k : String) :
    (g.addEdge u v k).nodes_not_in_graph = g.nodes_not_in_graph := by
  unfold ASDiGraph.addEdge
  split <;> rfl

/-- Helper: connection folds never touch `nodes_not_in_graph`. -/
theorem foldl_addEdge_notIn (nodeId key : String) (conns : List String) :
    ∀ g : ASDiGraph,
    ((conns.foldl (fun g src => g.addEdge src nodeId key) g)).nodes_not_in_graph =
      g.nodes_not_in_graph := by
  induction conns with
  | nil => intro g; rfl
  | cons c cs ih => intro g; rw [List.foldl_cons, ih, addEdge_notIn]

/-- Helper: the input-port pass never touches `nodes_not_in_graph`. -/
theorem addInputEdges_notIn (nodeId : String) (inputs : List (String × List String)) :
    ∀ g : ASDiGraph,
    (addInputEdges nodeId inputs g).nodes_not_in_graph = g.nodes_not_in_graph := by
  induction inputs with
  | nil => intro g; rfl
  | cons pc rest ih =>
    intro g
    obtain ⟨key, conns⟩ := pc
    rw [addInputEdges, ih, foldl_addEdge_notIn]

/-- Helper: the edge pass never touches `nodes_not_in_graph`. -/
theorem addAllEdges_notIn (config : ConfigMap) :
    ∀ g : ASDiGraph,
    (addAllEdges config g).nodes_not_in_graph = g.nodes_not_in_graph := by
  induction config with
  | nil => intro g; rfl
  | cons p rest ih =>
    intro g
    obtain ⟨nodeId, info⟩ := p
    rw [addAllEdges, ih, addInputEdges_notIn]

/-- Helper: a configuration lookup returns a declared entry. -/
theorem mem_of_configLookup (config : ConfigMap) (nodeId : String) (info : NodeRecord)
    (h : configLookup config nodeId = some info) : (nodeId, info) ∈ config := by
  unfold configLookup at h
  cases hf : config.find? (fun p => p.1 == nodeId) with
  | none => rw [hf] at h; cases h
  | some p =>
    rw [hf] at h
    have hp := List.mem_of_find?_eq_some hf
    have hpred := List.find?_some hf
    have h1 : p.1 = nodeId := by simpa using hpred
    have h2 : p.2 = info := by simpa using h
    have : p = (nodeId, info) := by
      cases p
      simp only at h1 h2
      rw [h1, h2]
    rwa [this] at hp

/-- Helper: with unique keys, a declared entry is what lookup returns. -/
theorem configLookup_of_mem (config : ConfigMap)
    (hN : (config.map (fun p => p.1)).Nodup) (nodeId : String) (info : NodeRecord)
    (h : (nodeId, info) ∈ config) : configLookup config nodeId = some info := by
  induction config with
  | nil => cases h
  | cons p rest ih =>
    rcases List.mem_cons.mp h with heq | htail
    · rw [← heq]
      unfold configLookup
      simp [List.find?]
    · have hk : (p.1 == nodeId) = false := by
        have hnotin : p.1 ∉ rest.map (fun p => p.1) := (List.nodup_cons.mp hN).1
        have : nodeId ∈ rest.map (fun p => p.1) :=
          List.mem_map_of_mem (fun p => p.1) htail
        rw [beq_eq_false_iff_ne]
        intro he
        rw [he] at hnotin
        exact hnotin this
      have hN' : (rest.map (fun p => p.1)).Nodup := (List.nodup_cons.mp hN).2
      unfold configLookup
      rw [List.find?]
      rw [hk]
      exact ih hN' htail

/-- Helper: `addNode` registers exactly one more id. -/
theorem hasNode_addNode (g : ASDiGraph) (id0 x : String) (info : NodeRecord) :
    (g.addNode id0 info).hasNode x = true ↔ g.hasNode x = true ∨ x = id0 := by
  unfold ASDiGraph.addNode ASDiGraph.hasNode
  simp only [List.any_append, List.any_cons, List.any_nil, Bool.or_eq_true,
    Bool.or_false, beq_iff_eq]
  constructor
  · rintro (h | h)
    · exact Or.inl h
    · exact Or.inr h.symm
  · rintro (h | h)
    · exact Or.inl h
    · exact Or.inr h.symm

/-- Helper: what the recursive construction can put into
`nodes_not_in_graph`: only elements of non-Copy records of the
configuration (a Copy node's dependency ids are never inserted). -/
theorem buildGo_notIn_bound (config : ConfigMap) :
    ∀ (fuel : Nat) (call : BuildCall) (g g' : ASDiGraph),
    buildGo config fuel g call = .ok g' →
    (∀ nodeId info, call = .node nodeId info → (nodeId, info) ∈ config) →
    ∀ x ∈ g'.nodes_not_in_graph,
      x ∈ g.nodes_not_in_graph ∨
      ∃ p ∈ config, nodeTypeOfName p.2.name ≠ some WorkflowNodeType.COPY ∧
        x ∈ p.2.elements := by
  intro fuel
  induction fuel with
  | zero =>
    intro call g g' h hc
    cases call with
    | deps ds =>
      cases ds with
      | nil => cases h
      | cons d rest => cases h
    | node nodeId info => cases h
  | succ fuel ih =>
    intro call g g' h hc
    cases call with
    | deps ds =>
      cases ds with
      | nil =>
        cases h
        intro x hx
        exact Or.inl hx
      | cons d rest =>
        simp only [buildGo] at h
        by_cases hn : g.hasNode d = true
        · simp only [if_pos hn] at h
          exact ih (.deps rest) g g' h (fun _ _ hh => nomatch hh)
        · simp only [if_neg hn] at h
          cases hd : configLookup config d with
          | none => simp only [hd] at h; cases h
          | some info =>
            simp only [hd] at h
            cases hB : buildGo config fuel g (.node d info) with
            | error e => simp only [hB] at h; cases h
            | ok g1 =>
              simp only [hB] at h
              intro x hx
              rcases ih (.deps rest) g1 g' h (fun _ _ hh => nomatch hh) x hx with hx1 | hx1
              · exact ih (.node d info) g g1 hB
                  (fun n2 i2 hh => by
                    cases hh
                    exact mem_of_configLookup config d info hd) x hx1
              · exact Or.inr hx1
    | node nodeId info =>
      have hmem : (nodeId, info) ∈ config := hc nodeId info rfl
      simp only [buildGo] at h
      cases hty : nodeTypeOfName info.name with
      | none => simp only [hty] at h; cases h
      | some nty =>
        simp only [hty] at h
        by_cases hn : g.hasNode nodeId = true
        · simp only [if_pos hn] at h
          cases h
          intro x hx
          exact Or.inl hx
        · simp only [if_neg hn] at h
          cases hB : buildGo config fuel
              (if nty ≠ WorkflowNodeType.COPY then g.addNotIn info.elements else g)
              (.deps info.elements) with
          | error e => simp only [hB] at h; cases h
          | ok g2 =>
            simp only [hB] at h
            cases hK : constructorCheck info info.elements.length with
            | error e => simp only [hK] at h; cases h
            | ok u =>
              simp only [hK] at h
              cases h
              intro x hx
              have hx2 : x ∈ g2.nodes_not_in_graph := hx
              rcases ih (.deps info.elements) _ g2 hB (fun _ _ hh => nomatch hh) x hx2 with
                hx1 | hx1
              · by_cases hcopy : nty = WorkflowNodeType.COPY
                · rw [if_neg (by simp [hcopy])] at hx1
                  exact Or.inl hx1
                · rw [if_pos hcopy] at hx1
                  rcases List.mem_append.mp hx1 with hx0 | hx0
                  · exact Or.inl hx0
                  · refine Or.inr ⟨(nodeId, info), hmem, ?_, hx0⟩
                    rw [hty]
                    simp [hcopy]
              · exact Or.inr hx1

/-- Helper: trivial equality used below: `addNode` does not change the
not-in-graph set. -/
theorem addNode_notIn (g : ASDiGraph) (id0 : String) (info : NodeRecord) :
    (g.addNode id0 info).nodes_not_in_graph = g.nodes_not_in_graph := rfl

/-- Helper: invariant of the recursive construction: every node present
in the graph was fully processed — its record is the configuration
lookup of its id and, unless it is a Copy node, its elements are already
in `nodes_not_in_graph`; the construction only grows the not-in-graph
set and the node set, and ends with its own node present. -/
theorem buildGo_inv (config : ConfigMap) :
    ∀ (fuel : Nat) (call : BuildCall) (g g' : ASDiGraph),
    buildGo config fuel g call = .ok g' →
    (∀ nodeId info, call = .node nodeId info → configLookup config nodeId = some info) →
    (∀ id, g.hasNode id = true → ∃ info, configLookup config id = some info ∧
      (nodeTypeOfName info.name ≠ some WorkflowNodeType.COPY →
        ∀ e ∈ info.elements, e ∈ g.nodes_not_in_graph)) →
    ((∀ id, g'.hasNode id = true → ∃ info, configLookup config id = some info ∧
      (nodeTypeOfName info.name ≠ some WorkflowNodeType.COPY →
        ∀ e ∈ info.elements, e ∈ g'.nodes_not_in_graph)) ∧
     (∀ x ∈ g.nodes_not_in_graph, x ∈ g'.nodes_not_in_graph) ∧
     (∀ id, g.hasNode id = true → g'.hasNode id = true) ∧
     (∀ nodeId info, call = .node nodeId info → g'.hasNode nodeId = true)) := by
  intro fuel
  induction fuel with
  | zero =>
    intro call g g' h hc hI
    cases call with
    | deps ds =>
      cases ds with
      | nil => cases h
      | cons d rest => cases h
    | node nodeId info => cases h
  | succ fuel ih =>
    intro call g g' h hc hI
    cases call with
    | deps ds =>
      cases ds with
      | nil =>
        cases h
        exact ⟨hI, fun x hx => hx, fun id hid => hid, fun _ _ hh => nomatch hh⟩
      | cons d rest =>
        simp only [buildGo] at h
        by_cases hn : g.hasNode d = true
        · simp only [if_pos hn] at h
          obtain ⟨hI', hmono, hnodes, _⟩ :=
            ih (.deps rest) g g' h (fun _ _ hh => nomatch hh) hI
          exact ⟨hI', hmono, hnodes, fun _ _ hh => nomatch hh⟩
        · simp only [if_neg hn] at h
          cases hd : configLookup config d with
          | none => simp only [hd] at h; cases h
          | some info =>
            simp only [hd] at h
            cases hB : buildGo config fuel g (.node d info) with
            | error e => simp only [hB] at h; cases h
            | ok g1 =>
              simp only [hB] at h
              obtain ⟨hI1, hmono1, hnodes1, _⟩ := ih (.node d info) g g1 hB
                (fun n2 i2 hh => by cases hh; exact hd) hI
              obtain ⟨hI2, hmono2, hnodes2, _⟩ := ih (.deps rest) g1 g' h
                (fun _ _ hh => nomatch hh) hI1
              exact ⟨hI2, fun x hx => hmono2 x (hmono1 x hx),
                fun id hid => hnodes2 id (hnodes1 id hid), fun _ _ hh => nomatch hh⟩
    | node nodeId info =>
      have hlook : configLookup config nodeId = some info := hc nodeId info rfl
      simp only [buildGo] at h
      cases hty : nodeTypeOfName info.name with
      | none => simp only [hty] at h; cases h
      | some nty =>
        simp only [hty] at h
        by_cases hn : g.hasNode nodeId = true
        · simp only [if_pos hn] at h
          cases h
          exact ⟨hI, fun x hx => hx, fun id hid => hid,
            fun n2 i2 hh => by cases hh; exact hn⟩
        · simp only [if_neg hn] at h
          cases hB : buildGo config fuel
              (if nty ≠ WorkflowNodeType.COPY then g.addNotIn info.elements else g)
              (.deps info.elements) with
          | error e => simp only [hB] at h; cases h
          | ok g2 =>
            simp only [hB] at h
            cases hK : constructorCheck info info.elements.length with
            | error e => simp only [hK] at h; cases h
            | ok u =>
              simp only [hK] at h
              cases h
              have hmid_nodes : ∀ id, g.hasNode id = true →
                  (if nty ≠ WorkflowNodeType.COPY then
                    g.addNotIn info.elements else g).hasNode id = true := by
                intro id hid
                by_cases hcopy : nty = WorkflowNodeType.COPY
                · rw [if_neg (by simp [hcopy])]; exact hid
                · rw [if_pos hcopy]; exact hid
              have hmid_notIn : ∀ x ∈ g.nodes_not_in_graph,
                  x ∈ (if nty ≠ WorkflowNodeType.COPY then
                    g.addNotIn info.elements else g).nodes_not_in_graph := by
                intro x hx
                by_cases hcopy : nty = WorkflowNodeType.COPY
                · rw [if_neg (by simp [hcopy])]; exact hx
                · rw [if_pos hcopy]
                  exact List.mem_append.mpr (Or.inl hx)
              have hImid : ∀ id, (if nty ≠ WorkflowNodeType.COPY then
                    g.addNotIn info.elements else g).hasNode id = true →
                  ∃ info2, configLookup config id = some info2 ∧
                  (nodeTypeOfName info2.name ≠ some WorkflowNodeType.COPY →
                    ∀ e ∈ info2.elements,
                      e ∈ (if nty ≠ WorkflowNodeType.COPY then
                        g.addNotIn info.elements else g).nodes_not_in_graph) := by
                intro id hid
                have hid' : g.hasNode id = true := by
                  by_cases hcopy : nty = WorkflowNodeType.COPY
                  · rwa [if_neg (by simp [hcopy])] at hid
                  · rwa [if_pos hcopy] at hid
                obtain ⟨info2, hl2, he2⟩ := hI id hid'
                exact ⟨info2, hl2, fun hnc e he => hmid_notIn e (he2 hnc e he)⟩
              obtain ⟨hI2, hmono2, hnodes2, _⟩ := ih (.deps info.elements) _ g2 hB
                (fun _ _ hh => nomatch hh) hImid
              have helem : nodeTypeOfName info.name ≠ some WorkflowNodeType.COPY →
                  ∀ e ∈ info.elements, e ∈ g2.nodes_not_in_graph := by
                intro hnc e he
                rw [hty] at hnc
                have hcopy : nty ≠ WorkflowNodeType.COPY := by
                  intro hh
                  exact hnc (by rw [hh])
                apply hmono2
                rw [if_pos hcopy]
                exact List.mem_append.mpr (Or.inr he)
              refine ⟨?_, ?_, ?_, ?_⟩
              · intro id hid
                rcases (hasNode_addNode g2 nodeId id info).mp hid with hid2 | heq
                · obtain ⟨info2, hl2, he2⟩ := hI2 id hid2
                  exact ⟨info2, hl2, fun hnc e he => he2 hnc e he⟩
                · rw [heq]
                  exact ⟨info, hlook, fun hnc e he => helem hnc e he⟩
              · intro x hx
                exact hmono2 x (hmid_notIn x hx)
              · intro id hid
                exact (hasNode_addNode g2 nodeId id info).mpr
                  (Or.inl (hnodes2 id (hmid_nodes id hid)))
              · intro n2 i2 hh
                cases hh
                exact (hasNode_addNode g2 nodeId nodeId info).mpr (Or.inr rfl)

/-- Helper: a completed phase has resolved every item name in
`NODE_NAME_MAPPING`. -/
theorem buildPhase_names (config : ConfigMap) (isModel : Bool) :
    ∀ (items : List (String × NodeRecord)) (g g' : ASDiGraph),
    buildPhase config isModel items g = .ok g' →
    ∀ p ∈ items, ∃ nty, nodeTypeOfName (p.2).name = some nty := by
  intro items
  induction items with
  | nil => intro g g' h p hp; cases hp
  | cons q rest ih =>
    intro g g' h p hp
    obtain ⟨nodeId, info⟩ := q
    simp only [buildPhase] at h
    cases hty : nodeTypeOfName info.name with
    | none => simp only [hty] at h; cases h
    | some nty =>
      simp only [hty] at h
      by_cases hphase : ((nty == WorkflowNodeType.MODEL) == isModel) = true
      · simp only [if_pos hphase] at h
        cases hB : buildGo config (buildFuel config) g (.node nodeId info) with
        | error e => simp only [hB] at h; cases h
        | ok g1 =>
          simp only [hB] at h
          rcases List.mem_cons.mp hp with heq | htail
          · rw [heq]; exact ⟨nty, hty⟩
          · exact ih g1 g' h p htail
      · simp only [if_neg hphase] at h
        rcases List.mem_cons.mp hp with heq | htail
        · rw [heq]; exact ⟨nty, hty⟩
        · exact ih g g' h p htail

/-- Helper: a phase can only insert elements of non-Copy records into
`nodes_not_in_graph`. -/
theorem buildPhase_notIn_bound (config : ConfigMap) (isModel : Bool) :
    ∀ (items : List (String × NodeRecord)) (g g' : ASDiGraph),
    (∀ p ∈ items, p ∈ config) →
    buildPhase config isModel items g = .ok g' →
    ∀ x ∈ g'.nodes_not_in_graph,
      x ∈ g.nodes_not_in_graph ∨
      ∃ p ∈ config, nodeTypeOfName p.2.name ≠ some WorkflowNodeType.COPY ∧
        x ∈ p.2.elements := by
  intro items
  induction items with
  | nil =>
    intro g g' hsub h
    cases h
    intro x hx
    exact Or.inl hx
  | cons q rest ih =>
    intro g g' hsub h
    obtain ⟨nodeId, info⟩ := q
    simp only [buildPhase] at h
    cases hty : nodeTypeOfName info.name with
    | none => simp only [hty] at h; cases h
    | some nty =>
      simp only [hty] at h
      by_cases hphase : ((nty == WorkflowNodeType.MODEL) == isModel) = true
      · simp only [if_pos hphase] at h
        cases hB : buildGo config (buildFuel config) g (.node nodeId info) with
        | error e => simp only [hB] at h; cases h
        | ok g1 =>
          simp only [hB] at h
          intro x hx
          rcases ih g1 g' (fun p hp => hsub p (List.mem_cons_of_mem _ hp)) h x hx with
            hx1 | hx1
          · exact buildGo_notIn_bound config (buildFuel config) (.node nodeId info) g g1 hB
              (fun n2 i2 hh => by
                cases hh
                exact hsub (nodeId, info) (List.mem_cons_self _ _)) x hx1
          · exact Or.inr hx1
      · simp only [if_neg hphase] at h
        exact ih g g' (fun p hp => hsub p (List.mem_cons_of_mem _ hp)) h

/-- Helper: phase-level version of the construction invariant, plus: the
phase registers every item whose category matches it. -/
theorem buildPhase_inv (config : ConfigMap) (isModel : Bool)
    (hN : (config.map (fun p => p.1)).Nodup) :
    ∀ (items : List (String × NodeRecord)) (g g' : ASDiGraph),
    (∀ p ∈ items, p ∈ config) →
    buildPhase config isModel items g = .ok g' →
    (∀ id, g.hasNode id = true → ∃ info, configLookup config id = some info ∧
      (nodeTypeOfName info.name ≠ some WorkflowNodeType.COPY →
        ∀ e ∈ info.elements, e ∈ g.nodes_not_in_graph)) →
    ((∀ id, g'.hasNode id = true → ∃ info, configLookup config id = some info ∧
      (nodeTypeOfName info.name ≠ some WorkflowNodeType.COPY →
        ∀ e ∈ info.elements, e ∈ g'.nodes_not_in_graph)) ∧
     (∀ x ∈ g.nodes_not_in_graph, x ∈ g'.nodes_not_in_graph) ∧
     (∀ id, g.hasNode id = true → g'.hasNode id = true) ∧
     (∀ p ∈ items, ∀ nty, nodeTypeOfName (p.2).name = some nty →
        ((nty == WorkflowNodeType.MODEL) == isModel) = true →
        g'.hasNode p.1 = true)) := by
  intro items
  induction items with
  | nil =>
    intro g g' hsub h hI
    cases h
    exact ⟨hI, fun x hx => hx, fun id hid => hid, fun p hp => by cases hp⟩
  | cons q rest ih =>
    intro g g' hsub h hI
    obtain ⟨nodeId, info⟩ := q
    simp only [buildPhase] at h
    cases hty : nodeTypeOfName info.name with
    | none => simp only [hty] at h; cases h
    | some nty =>
      simp only [hty] at h
      by_cases hphase : ((nty == WorkflowNodeType.MODEL) == isModel) = true
      · simp only [if_pos hphase] at h
        cases hB : buildGo config (buildFuel config) g (.node nodeId info) with
        | error e => simp only [hB] at h; cases h
        | ok g1 =>
          simp only [hB] at h
          have hlook : configLookup config nodeId = some info :=
            configLookup_of_mem config hN nodeId info
              (hsub (nodeId, info) (List.mem_cons_self _ _))
          obtain ⟨hI1, hmono1, hnodes1, hself1⟩ := buildGo_inv config (buildFuel config)
            (.node nodeId info) g g1 hB (fun n2 i2 hh => by cases hh; exact hlook) hI
          obtain ⟨hI2, hmono2, hnodes2, hproc2⟩ := ih g1 g'
            (fun p hp => hsub p (List.mem_cons_of_mem _ hp)) h hI1
          refine ⟨hI2, fun x hx => hmono2 x (hmono1 x hx),
            fun id hid => hnodes2 id (hnodes1 id hid), ?_⟩
          intro p hp nty2 hty2 hphase2
          rcases List.mem_cons.mp hp with heq | htail
          · rw [heq]
            exact hnodes2 nodeId (hself1 nodeId info rfl)
          · exact hproc2 p htail nty2 hty2 hphase2
      · simp only [if_neg hphase] at h
        obtain ⟨hI2, hmono2, hnodes2, hproc2⟩ := ih g g'
          (fun p hp => hsub p (List.mem_cons_of_mem _ hp)) h hI
        refine ⟨hI2, hmono2, hnodes2, ?_⟩
        intro p hp nty2 hty2 hphase2
        rcases List.mem_cons.mp hp with heq | htail
        · exfalso
          apply hphase
          rw [heq] at hty2
          rw [hty] at hty2
          have h12 : nty = nty2 := Option.some.inj hty2
          rw [h12]
          exact hphase2
        · exact hproc2 p htail nty2 hty2 hphase2

/-- C9: during build, for every non-Copy record all its `elements` ids
end up in `nodes_not_in_graph`, while an id referenced only as the
dependency of Copy nodes is never inserted there — the aliased source of
a Copy node remains a participating, directly schedulable node. -/
theorem c9_copy_dep_participates (config : ConfigMap) (g : ASDiGraph)
    (hN : (config.map (fun p => p.1)).Nodup)
    (hb : build_dag config = .ok g) :
    (∀ p ∈ config, nodeTypeOfName (p.2).name ≠ some WorkflowNodeType.COPY →
      ∀ e ∈ (p.2).elements, e ∈ g.nodes_not_in_graph) ∧
    (∀ d, (∀ p ∈ config, d ∈ (p.2).elements →
        nodeTypeOfName (p.2).name = some WorkflowNodeType.COPY) →
      d ∉ g.nodes_not_in_graph) := by
  unfold build_dag at hb
  cases h1 : buildPhase (sanitizeConfig config) true (sanitizeConfig config)
      ASDiGraph.empty with
  | error e => rw [h1] at hb; cases hb
  | ok g1 =>
    simp only [h1] at hb
    cases h2 : buildPhase (sanitizeConfig config) false (sanitizeConfig config) g1 with
    | error e => simp only [h2] at hb; cases hb
    | ok g2 =>
      simp only [h2] at hb
      split at hb
      case isFalse => cases hb
      case isTrue =>
        cases hb
        have hgnotIn : (addAllEdges (sanitizeConfig config) g2).nodes_not_in_graph =
            g2.nodes_not_in_graph := addAllEdges_notIn (sanitizeConfig config) g2
        have hNs : ((sanitizeConfig config).map (fun p => p.1)).Nodup := by
          unfold sanitizeConfig
          rw [List.map_map]
          exact hN
        have hIempty : ∀ id, (ASDiGraph.empty).hasNode id = true →
            ∃ info, configLookup (sanitizeConfig config) id = some info ∧
            (nodeTypeOfName info.name ≠ some WorkflowNodeType.COPY →
              ∀ e ∈ info.elements, e ∈ (ASDiGraph.empty).nodes_not_in_graph) := by
          intro id hid
          simp [ASDiGraph.empty, ASDiGraph.hasNode] at hid
        obtain ⟨hI1, _, hnodes1, hproc1⟩ := buildPhase_inv (sanitizeConfig config) true hNs
          (sanitizeConfig config) ASDiGraph.empty g1 (fun p hp => hp) h1 hIempty
        obtain ⟨hI2, hmono2, hnodes2, hproc2⟩ := buildPhase_inv (sanitizeConfig config)
          false hNs (sanitizeConfig config) g1 g2 (fun p hp => hp) h2 hI1
        constructor
        · intro p hp hnc e he
          have hps : (p.1, sanitize_node_data p.2) ∈ sanitizeConfig config := by
            unfold sanitizeConfig
            exact List.mem_map_of_mem _ hp
          obtain ⟨nty, hty⟩ := buildPhase_names (sanitizeConfig config) true
            (sanitizeConfig config) ASDiGraph.empty g1 h1 (p.1, sanitize_node_data p.2) hps
          have hasN : g2.hasNode p.1 = true := by
            by_cases hmodel : ((nty == WorkflowNodeType.MODEL) == true) = true
            · exact hnodes2 p.1 (hproc1 (p.1, sanitize_node_data p.2) hps nty hty hmodel)
            · apply hproc2 (p.1, sanitize_node_data p.2) hps nty hty
              have hb' : (nty == WorkflowNodeType.MODEL) = false := by
                cases hh : (nty == WorkflowNodeType.MODEL) with
                | false => rfl
                | true => exact absurd (by rw [hh]; rfl) hmodel
              rw [hb']
              rfl
          obtain ⟨info2, hl2, he2⟩ := hI2 p.1 hasN
          have hl2' : configLookup (sanitizeConfig config) p.1 =
              some (sanitize_node_data p.2) :=
            configLookup_of_mem (sanitizeConfig config) hNs p.1 (sanitize_node_data p.2) hps
          have hinfo : info2 = sanitize_node_data p.2 :=
            Option.some.inj (hl2.symm.trans hl2')
          have he' : e ∈ g2.nodes_not_in_graph := by
            apply he2
            · rw [hinfo]; exact hnc
            · rw [hinfo]; exact he
          rw [hgnotIn]
          exact he'
        · intro d hall hmem
          rw [hgnotIn] at hmem
          have hspec_contra : ¬ ∃ p ∈ sanitizeConfig config,
              nodeTypeOfName (p.2).name ≠ some WorkflowNodeType.COPY ∧
              d ∈ (p.2).elements := by
            rintro ⟨p, hp, hnc, hel⟩
            obtain ⟨q, hq, hpq⟩ := List.mem_map.mp hp
            apply hnc
            have hel' : d ∈ (q.2).elements := by rw [← hpq] at hel; exact hel
            have hcopy := hall q hq hel'
            rw [← hpq]
            exact hcopy
          rcases buildPhase_notIn_bound (sanitizeConfig config) false (sanitizeConfig config)
            g1 g2 (fun p hp => hp) h2 d hmem with hmem1 | hspec
          · rcases buildPhase_notIn_bound (sanitizeConfig config) true (sanitizeConfig config)
              ASDiGraph.empty g1 (fun p hp => hp) h1 d hmem1 with hmem0 | hspec
            · cases hmem0
            · exact hspec_contra hspec
          · exact hspec_contra hspec

/-- Witness for C9 on `cfgCopy`: the absorbed composite dependency `5` is
non-participating, the Copy source `2` stays participating. -/
theorem c9_copy_dep_participates_witness :
    ("5" : String) ∈ gCopyBuilt.nodes_not_in_graph ∧
    ("2" : String) ∉ gCopyBuilt.nodes_not_in_graph :=
  ⟨(c9_copy_dep_participates cfgCopy gCopyBuilt (by decide) rfl).1
      ("4", mkRec "SequentialPipeline" ["5"] [("input_1", ["3"])] [])
      (List.mem_cons_of_mem _ (List.mem_cons_of_mem _ (List.mem_cons_of_mem _
        (List.mem_cons_of_mem _ (List.mem_cons_self _ _)))))
      (by decide) "5" (by decide),
   (c9_copy_dep_participates cfgCopy gCopyBuilt (by decide) rfl).2 "2"
     (by
       intro p hp hel
       simp only [cfgCopy, List.mem_cons] at hp
       rcases hp with rfl | rfl | rfl | rfl | rfl | hp
       · exact absurd hel (by decide)
       · exact absurd hel (by decide)
       · rfl
       · exact absurd hel (by decide)
       · exact absurd hel (by decide)
       · cases hp)⟩
